import Mathlib

/-!
Verification development for the email-bot core: ingestion, deduplication,
the reply-lifecycle state machine, the durable JSON store, and the context
windower.  The JavaScript sources are shallowly embedded as executable Lean
definitions; stateful code threads an explicit `Store`, external
collaborators (Gmail, the reply generator, the filesystem) are modelled as
explicit outcome parameters, and JS timestamps are modelled as naturals.
-/

/-! ## Character-level string helpers

JS string primitives (`toLowerCase`, `trim`, `includes`, `startsWith`,
`slice`) are modelled on `List Char` so that every definition reduces in the
kernel. -/

def lowerStr (s : String) : String := ⟨s.data.map Char.toLower⟩

/-- The whitespace characters recognised by `JSON.parse` and by `trim`
(ASCII subset, which covers all inputs considered here). -/
def wsb (c : Char) : Bool := c = ' ' || c = '\t' || c = '\n' || c = '\r'

def trimChars (l : List Char) : List Char :=
  ((l.dropWhile wsb).reverse.dropWhile wsb).reverse

/-- JS `String.prototype.trim`. -/
def jsTrim (s : String) : String := ⟨trimChars s.data⟩

def chPrefix : List Char → List Char → Bool
  | [], _ => true
  | _ :: _, [] => false
  | p :: ps, c :: cs => p = c && chPrefix ps cs

def chSub : List Char → List Char → Bool
  | pat, [] => pat.isEmpty
  | pat, c :: cs => chPrefix pat (c :: cs) || chSub pat cs

/-- JS `s.includes(pat)`. -/
def strIncludes (s pat : String) : Bool := chSub pat.data s.data

/-- JS `s.startsWith(pat)`. -/
def strStarts (s pat : String) : Bool := chPrefix pat.data s.data

/-- JS `s.slice(0, n)`. -/
def strTake (s : String) (n : Nat) : String := ⟨s.data.take n⟩

/-! ## A JSON value type and a model of `JSON.parse`

`JSON.parse` is a platform builtin; it is modelled by an executable
recursive-descent parser over the standard JSON grammar.  Numbers keep their
source lexeme (their numeric value is never inspected by this system). -/

inductive Json where
  | null
  | bool (b : Bool)
  | num (lexeme : String)
  | str (s : String)
  | arr (xs : List Json)
  | obj (fields : List (String × Json))
deriving Repr

def hexVal (c : Char) : Option Nat :=
  if '0' ≤ c ∧ c ≤ '9' then some (c.toNat - '0'.toNat)
  else if 'a' ≤ c ∧ c ≤ 'f' then some (c.toNat - 'a'.toNat + 10)
  else if 'A' ≤ c ∧ c ≤ 'F' then some (c.toNat - 'A'.toNat + 10)
  else none

/-- JSON string body after the opening quote; handles the escape sequences
of the JSON grammar and rejects unescaped control characters. -/
def parseStrChars : List Char → List Char → Option (String × List Char)
  | [], _ => none
  | c :: cs, acc =>
    if c = '"' then some (⟨acc.reverse⟩, cs)
    else if c = '\\' then
      match cs with
      | [] => none
      | e :: cs2 =>
        if e = '"' then parseStrChars cs2 ('"' :: acc)
        else if e = '\\' then parseStrChars cs2 ('\\' :: acc)
        else if e = '/' then parseStrChars cs2 ('/' :: acc)
        else if e = 'b' then parseStrChars cs2 ('\x08' :: acc)
        else if e = 'f' then parseStrChars cs2 ('\x0c' :: acc)
        else if e = 'n' then parseStrChars cs2 ('\n' :: acc)
        else if e = 'r' then parseStrChars cs2 ('\r' :: acc)
        else if e = 't' then parseStrChars cs2 ('\t' :: acc)
        else if e = 'u' then
          match cs2 with
          | h1 :: h2 :: h3 :: h4 :: cs3 =>
            match hexVal h1, hexVal h2, hexVal h3, hexVal h4 with
            | some a, some b, some c3, some d =>
              parseStrChars cs3 (Char.ofNat (a * 4096 + b * 256 + c3 * 16 + d) :: acc)
            | _, _, _, _ => none
          | _ => none
        else none
    else if c.toNat < 32 then none
    else parseStrChars cs (c :: acc)

/-- JSON number lexeme: `-? (0 | [1-9][0-9]*) (. [0-9]+)? ([eE][+-]?[0-9]+)?`. -/
def parseNumChars (l : List Char) : Option (String × List Char) :=
  let (negPart, l1) : List Char × List Char :=
    match l with
    | '-' :: r => (['-'], r)
    | _ => ([], l)
  match l1 with
  | [] => none
  | d :: r =>
    if d = '0' then
      let (fracExp, rest) := numTail r
      some (⟨negPart ++ ['0'] ++ fracExp⟩, rest)
    else if d.isDigit then
      let digits := r.takeWhile Char.isDigit
      let r2 := r.drop digits.length
      let (fracExp, rest) := numTail r2
      some (⟨negPart ++ [d] ++ digits ++ fracExp⟩, rest)
    else none
where
  numTail (l : List Char) : List Char × List Char :=
    let (frac, l2) : List Char × List Char :=
      match l with
      | '.' :: r =>
        let ds := r.takeWhile Char.isDigit
        if ds.isEmpty then ([], l) else ('.' :: ds, r.drop ds.length)
      | _ => ([], l)
    match l2 with
    | e :: r =>
      if e = 'e' ∨ e = 'E' then
        let (sgn, r2) : List Char × List Char :=
          match r with
          | '+' :: rr => (['+'], rr)
          | '-' :: rr => (['-'], rr)
          | _ => ([], r)
        let ds := r2.takeWhile Char.isDigit
        if ds.isEmpty then (frac, l2)
        else (frac ++ e :: sgn ++ ds, r2.drop ds.length)
      else (frac, l2)
    | [] => (frac, l2)

mutual

def parseVal : Nat → List Char → Option (Json × List Char)
  | 0, _ => none
  | fuel + 1, input =>
    match input.dropWhile wsb with
    | [] => none
    | c :: cs =>
      if c = 'n' then
        if chPrefix ['u', 'l', 'l'] cs then some (Json.null, cs.drop 3) else none
      else if c = 't' then
        if chPrefix ['r', 'u', 'e'] cs then some (Json.bool true, cs.drop 3) else none
      else if c = 'f' then
        if chPrefix ['a', 'l', 's', 'e'] cs then some (Json.bool false, cs.drop 4) else none
      else if c = '"' then
        match parseStrChars cs [] with
        | some (s, rest) => some (Json.str s, rest)
        | none => none
      else if c = '[' then
        match cs.dropWhile wsb with
        | ']' :: rest => some (Json.arr [], rest)
        | _ => parseElems fuel cs
      else if c = '{' then
        match cs.dropWhile wsb with
        | '}' :: rest => some (Json.obj [], rest)
        | _ => parseMembers fuel cs
      else
        match parseNumChars (c :: cs) with
        | some (lex, rest) => some (Json.num lex, rest)
        | none => none

def parseElems : Nat → List Char → Option (Json × List Char)
  | 0, _ => none
  | fuel + 1, input =>
    match parseVal fuel input with
    | none => none
    | some (v, rest) =>
      match rest.dropWhile wsb with
      | ',' :: rest2 =>
        match parseElems fuel rest2 with
        | some (Json.arr xs, rest3) => some (Json.arr (v :: xs), rest3)
        | _ => none
      | ']' :: rest2 => some (Json.arr [v], rest2)
      | _ => none

def parseMembers : Nat → List Char → Option (Json × List Char)
  | 0, _ => none
  | fuel + 1, input =>
    match input.dropWhile wsb with
    | '"' :: cs =>
      match parseStrChars cs [] with
      | none => none
      | some (key, rest) =>
        match rest.dropWhile wsb with
        | ':' :: rest2 =>
          match parseVal fuel rest2 with
          | none => none
          | some (v, rest3) =>
            match rest3.dropWhile wsb with
            | ',' :: rest4 =>
              match parseMembers fuel rest4 with
              | some (Json.obj fs, rest5) => some (Json.obj ((key, v) :: fs), rest5)
              | _ => none
            | '}' :: rest4 => some (Json.obj [(key, v)], rest4)
            | _ => none
        | _ => none
    | _ => none

end

/-- Model of `JSON.parse`: a single JSON value, with surrounding whitespace,
covering the whole input. -/
def jsonParse (s : String) : Option Json :=
  match parseVal (2 * s.data.length + 4) s.data with
  | some (v, rest) => if (rest.dropWhile wsb).isEmpty then some v else none
  | none => none

/-! ## `controller/db.js` — the Durable Store's persistence layer

`loadDB` is a function of the backing file's content (`none` = file
missing).  It returns the parsed document together with the list of raw
contents archived to the quarantine directory (`backupCorruptFile`). -/

/-- `safeParse` from `db.js`: `JSON.parse` with errors turned into `null`. -/
def safeParse (raw : String) : Option Json := jsonParse raw

/-- The salvage regex `/\{[\s\S]*\}$/` of `loadDB`: anchored at the end of
the string, it matches from the first `\x7b` to the final character provided
that character is `\x7d`. -/
def braceMatchEnd (raw : String) : Option String :=
  if raw.data.contains '{' ∧ raw.data.getLast? = some '}' then
    some ⟨raw.data.dropWhile (fun c => ¬ c = '{')⟩
  else none

/-- The initial Store document `{messages:{}, threads:{}}`. -/
def emptyDBJson : Json := Json.obj [("messages", Json.obj []), ("threads", Json.obj [])]

structure LoadOutcome where
  result : Json
  quarantined : List String

/-- `loadDB` from `db.js` as a function of the file content. -/
def loadDB (file : Option String) : LoadOutcome :=
  match file with
  | none => ⟨emptyDBJson, []⟩
  | some content =>
    let raw := jsTrim content
    if raw = "" then ⟨emptyDBJson, []⟩
    else
      match safeParse raw with
      | some parsed => ⟨parsed, []⟩
      | none =>
        match braceMatchEnd raw with
        | some candidate =>
          match safeParse candidate with
          | some p2 => ⟨p2, []⟩
          | none => ⟨emptyDBJson, [raw]⟩
        | none => ⟨emptyDBJson, [raw]⟩

/-! ### `saveDB` — atomic write with direct-write fallback -/

inductive WriteAttempt where
  | atomicTmpWrite
  | atomicRename
  | directWrite
deriving DecidableEq, Repr

/-- Filesystem behaviour for one `saveDB` call: whether each primitive
operation succeeds. -/
structure FsEnv where
  tmpWriteOk : Bool
  renameOk : Bool
  directWriteOk : Bool
deriving DecidableEq, Repr

/-- `saveDB` from `db.js`: temp-write + rename, then direct write as
fallback, re-throwing only when both paths fail.  Returns the outcome and
the sequence of filesystem operations attempted. -/
def saveDB (env : FsEnv) : Except String Unit × List WriteAttempt :=
  if env.tmpWriteOk then
    if env.renameOk then
      (Except.ok (), [.atomicTmpWrite, .atomicRename])
    else if env.directWriteOk then
      (Except.ok (), [.atomicTmpWrite, .atomicRename, .directWrite])
    else
      (Except.error "saveDB fallback write failed", [.atomicTmpWrite, .atomicRename, .directWrite])
  else if env.directWriteOk then
    (Except.ok (), [.atomicTmpWrite, .directWrite])
  else
    (Except.error "saveDB fallback write failed", [.atomicTmpWrite, .directWrite])


/-! ## Data model: `Status`, `Message`, `Store`

The Store document's typed view, as read and written by `poll_mail.js`,
`process_mail.js` and `respond_mail.js`.  JS object maps become association
lists whose update replaces the binding in place; ISO-8601 timestamps become
naturals (`new Date` comparison is order on timestamps). -/

inductive Status where
  | new
  | responded
  | sent
  | human_review
deriving DecidableEq, Repr

structure Reply where
  subject : String
  body : String
  sentMessageId : String
  sentAt : Nat
deriving Repr

structure Message where
  id : String
  threadId : String
  snippet : String
  from_ : String
  subject : String
  date : Nat
  messageIdHeader : Option String
  replyToHeader : Option String
  sentByUs : Bool
  status : Option Status
  humanReviewReason : Option String
  llm_raw : Option String
  llm_parsed : Option Json
  reply : Option Reply
  respondedAt : Option Nat
deriving Repr

/-- The record `{}` used as the base of an upsert when no record exists. -/
def emptyMessage : Message where
  id := ""
  threadId := ""
  snippet := ""
  from_ := ""
  subject := ""
  date := 0
  messageIdHeader := none
  replyToHeader := none
  sentByUs := false
  status := none
  humanReviewReason := none
  llm_raw := none
  llm_parsed := none
  reply := none
  respondedAt := none

structure Store where
  messages : List (String × Message)
  threads : List (String × List String)
deriving Repr

def emptyStore : Store := ⟨[], []⟩

/-! ### JS-object maps as association lists -/

def getEntry {α : Type} : List (String × α) → String → Option α
  | [], _ => none
  | (k', v) :: rest, k => if k' = k then some v else getEntry rest k

def setEntry {α : Type} : List (String × α) → String → α → List (String × α)
  | [], k, v => [(k, v)]
  | (k', v') :: rest, k, v =>
    if k' = k then (k, v) :: rest else (k', v') :: setEntry rest k v

def getMsg (db : Store) (id : String) : Option Message := getEntry db.messages id

def setMsg (db : Store) (id : String) (m : Message) : Store :=
  { db with messages := setEntry db.messages id m }

def getThreadIds (db : Store) (tid : String) : List String :=
  (getEntry db.threads tid).getD []

/-- `db.threads[tid] = (db.threads[tid] || []).concat([id])` with the
`includes` guard used at every insertion site. -/
def pushThreadId (db : Store) (tid : String) (id : String) : Store :=
  let tlist := getThreadIds db tid
  if id ∈ tlist then db
  else { db with threads := setEntry db.threads tid (tlist ++ [id]) }

/-- The status currently persisted for `id` (`none` when the record is
absent or has no status field). -/
def statusOf (db : Store) (id : String) : Option Status :=
  (getMsg db id).bind (fun m => m.status)

/-! ### JS truthiness helpers for `||` chains over optional strings -/

def truthyS : Option String → Bool
  | some s => ¬ s = ""
  | none => false

/-- `a || b` for two possibly-absent strings. -/
def jsOrS (a b : Option String) : Option String := if truthyS a then a else b

/-- `a || b` where the fallback is a plain string. -/
def jsOrStr (a : Option String) (b : String) : String :=
  match a with
  | some s => if s = "" then b else s
  | none => b

/-! ### Sorting by `date` (`.sort((a, b) => new Date(a.date) - new Date(b.date))`)

JS array sort is stable, and a stable sort by a key is unique, so insertion
sort is an exact model. -/

def dateLe (a b : Message) : Prop := a.date ≤ b.date

instance : DecidableRel dateLe := fun a b => inferInstanceAs (Decidable (a.date ≤ b.date))

instance : IsTotal Message dateLe := ⟨fun a b => Nat.le_total a.date b.date⟩

instance : IsTrans Message dateLe := ⟨fun _ _ _ h1 h2 => Nat.le_trans h1 h2⟩

def sortByDate (l : List Message) : List Message := List.insertionSort dateLe l

/-! ## `poll_mail.js` — Poller -/

/-- The shape normalised from a fetched Gmail message (`msgMetas` entries in
`startGmailPoller`). -/
structure MsgMeta where
  id : String
  threadId : String
  snippet : String
  from_ : String
  subject : String
  date : Nat
  messageIdHeader : Option String
  replyToHeader : Option String
  sentByUs : Bool
deriving Repr

/-- The tick's candidate filter: only fetch ids unknown to the Store and not
held by the recently-sent dedup guard. -/
def pollerUnseen (db : Store) (recentlySent : List String) (ids : List String) : List String :=
  ids.filter (fun i => (getMsg db i).isNone && !(recentlySent.contains i))

/-- One iteration of the upsert loop of `startGmailPoller` (lines 118-140):
build the new record over the existing one, preserving an existing `status`
over the computed default, then update thread membership. -/
def pollerUpsertOne (db : Store) (mm : MsgMeta) : Store :=
  let existing := getMsg db mm.id
  let base := existing.getD emptyMessage
  let status : Status :=
    match existing.bind (fun e => e.status) with
    | some s => s
    | none => if mm.sentByUs then Status.sent else Status.new
  let updated : Message :=
    { base with
      id := mm.id
      threadId := mm.threadId
      snippet := mm.snippet
      from_ := mm.from_
      subject := mm.subject
      date := mm.date
      messageIdHeader := jsOrS mm.messageIdHeader (jsOrS base.messageIdHeader none)
      replyToHeader := jsOrS mm.replyToHeader (jsOrS base.replyToHeader none)
      sentByUs := mm.sentByUs
      status := some status }
  pushThreadId (setMsg db mm.id updated) mm.threadId mm.id

/-- `buildContextForLLM(threadMsgs, nUser, mAssistant)`: last `nUser`
inbound and last `mAssistant` outbound messages, re-filtered into the
thread's own order.  `sliceNeg` is JS `slice(-n)`. -/
def sliceNeg {α : Type} (l : List α) (n : Nat) : List α :=
  if n = 0 then l else l.drop (l.length - n)

def buildContextForLLM (threadMsgs : List Message) (nUser mAssistant : Nat) : List Message :=
  let users := threadMsgs.filter (fun m => !m.sentByUs)
  let assists := threadMsgs.filter (fun m => m.sentByUs)
  let lastUsers := sliceNeg users nUser
  let lastAssists := sliceNeg assists mAssistant
  let idsToInclude := (lastAssists ++ lastUsers).map (fun m => m.id)
  threadMsgs.filter (fun m => decide (m.id ∈ idsToInclude))

/-! ## `process_mail.js` — processor-side upsert and thread read-back -/

/-- One iteration of the `threadMessages` upsert loop of `postEmailFetch`
(lines 632-653).  `myEmailLower` is the module-level lowercased owning
address. -/
def processorUpsertOne (myEmailLower : String) (db : Store) (m : Message) : Store :=
  let existing := getMsg db m.id
  let base := existing.getD emptyMessage
  let sentByUs := m.sentByUs || strIncludes (lowerStr m.from_) myEmailLower
  let status : Status :=
    match existing.bind (fun e => e.status) with
    | some s => s
    | none => if sentByUs then Status.sent else Status.new
  let updated : Message :=
    { base with
      id := m.id
      threadId := m.threadId
      snippet := m.snippet
      from_ := m.from_
      subject := m.subject
      date := m.date
      messageIdHeader := jsOrS m.messageIdHeader (jsOrS base.messageIdHeader none)
      replyToHeader := jsOrS m.replyToHeader (jsOrS base.replyToHeader none)
      sentByUs := sentByUs
      status := some status }
  pushThreadId (setMsg db m.id updated) m.threadId m.id

/-- `getThreadMessages(db, threadId)`: resolve the thread's id list against
the message map and order by `date`. -/
def getThreadMessages (db : Store) (tid : String) : List Message :=
  sortByDate ((getThreadIds db tid).filterMap (fun i => getMsg db i))

/-! ## External collaborators for one processing run

The reply generator, the send capability and the clock are modelled as a
fixed behaviour for the run; the Store is threaded explicitly (each
`loadDB()` reads the value last saved, matching the sequential execution of
one processing pass). -/

inductive LlmOutcome where
  | failure
  | output (raw : String)
deriving DecidableEq, Repr

inductive SendOutcome where
  | failure (msg : String)
  | success (id : String) (threadId : Option String)
deriving DecidableEq, Repr

structure Env where
  myEmail : String
  gmailPresent : Bool
  llm : LlmOutcome
  send : SendOutcome
  sentHeader : Option String
  ourFromHeader : Option String
  now : Nat
deriving DecidableEq, Repr

/-- External calls performed during a run. -/
structure Effects where
  llmCalls : Nat
  sendCalls : Nat
deriving DecidableEq, Repr

def zeroEff : Effects := ⟨0, 0⟩

def addEff (a b : Effects) : Effects := ⟨a.llmCalls + b.llmCalls, a.sendCalls + b.sendCalls⟩

/-! ## `respond_mail.js` helpers -/

/-- Scan for the regex `/<([^>]+)>/`. -/
def angleCapture : List Char → Option (List Char)
  | [] => none
  | c :: rest =>
    if c = '<' then
      let inner := rest.takeWhile (fun ch => ¬ ch = '>')
      if inner.isEmpty then angleCapture rest
      else if (rest.drop inner.length).head? = some '>' then some inner
      else angleCapture rest
    else angleCapture rest

/-- `extractEmailAddress(headerValue)` from `respond_mail.js`. -/
def extractEmailAddress (headerValue : String) : String :=
  if headerValue = "" then ""
  else
    match angleCapture headerValue.data with
    | some inner => jsTrim ⟨inner⟩
    | none => if strIncludes headerValue "@" then jsTrim headerValue else ""

/-- Index of the first occurrence of `pat` in `l`. -/
def findSubIdx (pat : List Char) : List Char → Option Nat
  | [] => if pat.isEmpty then some 0 else none
  | c :: rest =>
    if chPrefix pat (c :: rest) then some 0
    else (findSubIdx pat rest).map (fun n => n + 1)

/-- The fenced block `/```json([\s\S]*?)```/i`. -/
def jsonFenceMatch (l : List Char) : Option String :=
  let low := l.map Char.toLower
  match findSubIdx "```json".data low with
  | some i =>
    let after := l.drop (i + 7)
    (findSubIdx "```".data after).map (fun j => jsTrim ⟨after.take j⟩)
  | none => none

/-- The fenced block `/```([\s\S]*?)```/`. -/
def fenceMatch (l : List Char) : Option String :=
  match findSubIdx "```".data l with
  | some i =>
    let after := l.drop (i + 3)
    (findSubIdx "```".data after).map (fun j => jsTrim ⟨after.take j⟩)
  | none => none

/-- The greedy brace match `/\{[\s\S]*\}/`: from the first `\x7b` to the
last `\x7d`, when the latter comes after the former. -/
def braceAnyMatch (l : List Char) : Option String :=
  let a := (l.takeWhile (fun c => ¬ c = '{')).length
  if a < l.length ∧ (l.drop (a + 1)).contains '}' then
    let sufLen := (l.reverse.takeWhile (fun c => ¬ c = '}')).length
    let b := l.length - 1 - sufLen
    some ⟨(l.drop a).take (b - a + 1)⟩
  else none

/-- `extractJsonBlock(text)` from `respond_mail.js`. -/
def extractJsonBlock (text : String) : Option String :=
  if text = "" then none
  else
    match jsonFenceMatch text.data with
    | some s => some s
    | none =>
      match fenceMatch text.data with
      | some s => some s
      | none => braceAnyMatch text.data

/-! ### JS views of the parsed generator output -/

/-- JS truthiness of a JSON value (a number is falsy when its mantissa is
zero). -/
def jTruthy : Json → Bool
  | Json.null => false
  | Json.bool b => b
  | Json.num lex =>
    !(((lex.data.takeWhile (fun c => ¬(c = 'e' ∨ c = 'E'))).filter Char.isDigit).all (fun c => c = '0'))
  | Json.str s => ¬ s = ""
  | Json.arr _ => true
  | Json.obj _ => true

/-- Property access `v.k` (later duplicate keys shadow earlier ones, as in
`JSON.parse`). -/
def getField : Json → String → Option Json
  | Json.obj fs, k => getEntry fs.reverse k
  | _, _ => none

/-- `String(v)` for the primitive values that occur in generator output
(compound values only ever feed log strings). -/
def jsToString : Json → String
  | Json.null => "null"
  | Json.bool true => "true"
  | Json.bool false => "false"
  | Json.num lex => lex
  | Json.str s => s
  | Json.arr _ => ""
  | Json.obj _ => "[object Object]"

/-- `parsed && parsed.reply ? String(parsed.reply).trim() : null`. -/
def llmReplyText (parsed : Json) : Option String :=
  if jTruthy parsed then
    match getField parsed "reply" with
    | some v => if jTruthy v then some (jsTrim (jsToString v)) else none
    | none => none
  else none

/-- `parsed && !!parsed.requires_human_review`. -/
def llmRequiresHuman (parsed : Json) : Bool :=
  jTruthy parsed &&
    (match getField parsed "requires_human_review" with
     | some v => jTruthy v
     | none => false)

/-- The review-branch test `requiresHuman || !replyText`. -/
def llmReviewTriggered (parsed : Json) : Bool :=
  llmRequiresHuman parsed ||
    (match llmReplyText parsed with
     | some t => decide (t = "")
     | none => true)

/-! ## `respond_mail.js` — the reply pipeline for one compact context -/

structure RespondResult where
  ok : Bool
  error : Option String
  reason : Option String
  human_review : Bool
  raw : Option String
  llmRaw : Option String
  sentMessageId : Option String
  sentThreadId : Option String
  sentMessageHeader : Option String
  sentBody : Option String
  sentSubject : Option String
  parsed : Option Json
deriving Repr

def emptyRespondResult : RespondResult where
  ok := false
  error := none
  reason := none
  human_review := false
  raw := none
  llmRaw := none
  sentMessageId := none
  sentThreadId := none
  sentMessageHeader := none
  sentBody := none
  sentSubject := none
  parsed := none

/-- The failure-path loop `for (const m of thread) if (db.messages[m.id])
{ status = human_review; humanReviewReason = r; [llm_raw = raw] }`:
every compact-context message present in the Store is marked, whatever its
current status; `raw = none` on the call-failed path leaves `llm_raw`
untouched. -/
def markCtxStep (r : String) (raw : Option String) (d : Store) (m : Message) : Store :=
  match getMsg d m.id with
  | none => d
  | some ex =>
    setMsg d m.id
      { ex with
        status := some Status.human_review
        humanReviewReason := some r
        llm_raw := match raw with | some s => some s | none => ex.llm_raw }

def markCtxHumanReview (db : Store) (ctx : List Message) (r : String) (raw : Option String) : Store :=
  ctx.foldl (markCtxStep r raw) db

/-- The success-path loop over `fullThread.filter(x => x.status === 'new'
&& !x.sentByUs)` (lines 534-547). -/
def markRespondedStep (replySubject finalBody sid : String) (now : Nat) (llmRaw : String)
    (parsed : Json) (d : Store) (m : Message) : Store :=
  match getMsg d m.id with
  | none => d
  | some ex =>
    setMsg d m.id
      { ex with
        status := some Status.responded
        respondedAt := some now
        reply := some { subject := replySubject, body := finalBody, sentMessageId := sid, sentAt := now }
        llm_raw := some llmRaw
        llm_parsed := some parsed }

def markResponded (db : Store) (fullThread : List Message) (replySubject finalBody sid : String)
    (now : Nat) (llmRaw : String) (parsed : Json) : Store :=
  (fullThread.filter (fun x => decide (x.status = some Status.new) && !x.sentByUs)).foldl
    (markRespondedStep replySubject finalBody sid now llmRaw parsed) db

/-- The sent-record insertion of `respond_mail` (lines 550-572). -/
def insertSentRecordRM (env : Env) (db : Store) (sid : String) (sthread : Option String)
    (replyT replySubject : String) (sentHeader : Option String) (threadIdR : String) : Store :=
  match getMsg db sid with
  | none =>
    let rec0 : Message :=
      { emptyMessage with
        id := sid
        threadId := jsOrStr sthread threadIdR
        snippet := strTake replyT 300
        from_ := jsOrStr env.ourFromHeader env.myEmail
        subject := replySubject
        date := env.now
        messageIdHeader := sentHeader
        sentByUs := true
        status := some Status.sent }
    pushThreadId (setMsg db sid rec0) rec0.threadId sid
  | some ex =>
    setMsg db sid
      { ex with
        sentByUs := true
        status := some (ex.status.getD Status.sent)
        messageIdHeader := jsOrS ex.messageIdHeader (jsOrS sentHeader none) }

/-- `respond_mail(thread, toEmail, subject, options)`.  The MIME assembly
and transport of `sendMailRaw` and the sent-header fetch are absorbed into
`env.send` / `env.sentHeader`; every Store read and write of the source is
kept, threaded through the returned Store. -/
def respond_mail (env : Env) (thread0 : List Message) (toEmail subject : Option String)
    (db : Store) : RespondResult × Store × Effects :=
  if thread0.isEmpty then
    ({ emptyRespondResult with error := some "empty_context" }, db, zeroEff)
  else
    let thread := sortByDate thread0
    if ¬ env.gmailPresent then
      ({ emptyRespondResult with error := some "gmail_client_required" }, db, zeroEff)
    else
      let latest := thread.getLastD emptyMessage
      if strIncludes (lowerStr latest.from_) (lowerStr env.myEmail) then
        ({ emptyRespondResult with reason := some "latest_from_us" }, db, zeroEff)
      else
        let baseSubject := jsOrStr subject (if latest.subject = "" then "Enquiry" else latest.subject)
        let replySubject := if strStarts (lowerStr baseSubject) "re:" then baseSubject else "Re: " ++ baseSubject
        match env.llm with
        | LlmOutcome.failure =>
          ({ emptyRespondResult with human_review := true, reason := some "llm_error" },
           markCtxHumanReview db thread "LLM call failed" none, ⟨1, 0⟩)
        | LlmOutcome.output llmRaw =>
          match jsonParse (jsOrStr (extractJsonBlock llmRaw) llmRaw) with
          | none =>
            ({ emptyRespondResult with human_review := true, reason := some "unparsable_llm", raw := some llmRaw },
             markCtxHumanReview db thread "LLM returned unparsable JSON" (some llmRaw), ⟨1, 0⟩)
          | some parsed =>
            if llmReviewTriggered parsed then
              let hrReason :=
                if jTruthy parsed then
                  match getField parsed "reason" with
                  | some v => if jTruthy v then jsToString v else "LLM requested review"
                  | none => "LLM requested review"
                else "LLM empty reply"
              let reasonRes : Option String :=
                if jTruthy parsed then (getField parsed "reason").map jsToString else some "empty_reply"
              ({ emptyRespondResult with human_review := true, reason := reasonRes },
               markCtxHumanReview db thread hrReason (some llmRaw), ⟨1, 0⟩)
            else
              let replyT := (llmReplyText parsed).getD ""
              let fullThread :=
                match getEntry db.threads latest.threadId with
                | some ids => sortByDate (ids.filterMap (fun i => getMsg db i))
                | none => [latest]
              let threadIdR :=
                if latest.threadId = "" then
                  match fullThread.head? with
                  | some h => h.threadId
                  | none => ""
                else latest.threadId
              let finalBody := replyT ++ "\n"
              match env.send with
              | SendOutcome.failure msg =>
                ({ emptyRespondResult with error := some "send_failed" },
                 markCtxHumanReview db thread ("Failed to send via Gmail: " ++ msg) (some llmRaw), ⟨1, 1⟩)
              | SendOutcome.success sid sthread =>
                let dbA := markResponded db fullThread replySubject finalBody sid env.now llmRaw parsed
                let dbB := insertSentRecordRM env dbA sid sthread replyT replySubject env.sentHeader threadIdR
                ({ ok := true, error := none, reason := none, human_review := false, raw := none,
                   llmRaw := some llmRaw, sentMessageId := some sid, sentThreadId := sthread,
                   sentMessageHeader := env.sentHeader, sentBody := some finalBody,
                   sentSubject := some replySubject, parsed := some parsed }, dbB, ⟨1, 1⟩)

/-! ## `process_mail.js` — `postEmailFetch` -/

structure LoopEntry where
  id : String
  ok : Bool
  reason : Option String
deriving DecidableEq, Repr

structure PostResult where
  handled : Bool
  reason : Option String
  results : List LoopEntry
deriving DecidableEq, Repr

/-- The sent-record insertion of `postEmailFetch` (lines 706-726); note its
fields differ from the one inside `respond_mail` (`resp.fromHeader` is
never set by `respond_mail`, so the sender falls back to the configured
address or `"me"`). -/
def insertSentRecordPM (env : Env) (db : Store) (sid : String) (resp : RespondResult)
    (nm : Message) : Store :=
  match getMsg db sid with
  | none =>
    let rec0 : Message :=
      { emptyMessage with
        id := sid
        threadId := jsOrStr resp.sentThreadId nm.threadId
        snippet := strTake (jsOrStr resp.sentBody "") 300
        from_ := if env.myEmail = "" then "me" else env.myEmail
        subject := jsOrStr resp.sentSubject ("Re: " ++ nm.subject)
        date := env.now
        messageIdHeader := jsOrS resp.sentMessageHeader none
        sentByUs := true
        status := some Status.sent }
    pushThreadId (setMsg db sid rec0) rec0.threadId sid
  | some ex =>
    setMsg db sid
      { ex with
        sentByUs := true
        status := some (ex.status.getD Status.sent)
        messageIdHeader := jsOrS ex.messageIdHeader (jsOrS resp.sentMessageHeader none) }

/-- The body of the `for (const nm of newMessages)` loop of
`postEmailFetch` (lines 681-763): re-check the current status, run
`respond_mail`, then apply the verdict.  The in-memory `responded` update
built when a sent id is present is discarded without a save, exactly as in
the source (`db2` is only saved on the no-sent-id branch). -/
def processNewMessage (env : Env) (metaContext : List Message) (nm : Message)
    (db : Store) : LoopEntry × Store × Effects :=
  let skip : Bool :=
    match getMsg db nm.id with
    | some r => !(decide (r.status = some Status.new))
    | none => false
  if skip then
    ({ id := nm.id, ok := false, reason := some "status_changed" }, db, zeroEff)
  else
    let (resp, db1, eff) := respond_mail env metaContext none none db
    if resp.ok then
      match resp.sentMessageId with
      | some sid =>
        (⟨nm.id, true, none⟩, insertSentRecordPM env db1 sid resp nm, eff)
      | none =>
        let db2 :=
          match getMsg db1 nm.id with
          | some ex =>
            setMsg db1 nm.id { ex with status := some Status.responded, respondedAt := some env.now }
          | none => db1
        (⟨nm.id, true, none⟩, db2, eff)
    else
      if resp.human_review then
        match getMsg db1 nm.id with
        | some ex =>
          let db4 :=
            setMsg db1 nm.id
              { ex with
                status := some Status.human_review
                humanReviewReason := some (jsOrStr resp.reason "LLM requested review")
                llm_raw := jsOrS resp.raw (jsOrS resp.llmRaw none) }
          (⟨nm.id, false, resp.reason⟩, db4, eff)
        | none => (⟨nm.id, false, resp.reason⟩, db1, eff)
      else
        (⟨nm.id, false, resp.reason⟩, db1, eff)

structure Meta where
  threadId : Option String
  threadMessages : Option (List Message)
  contextForLLM : Option (List Message)

/-- The opening upsert pass of `postEmailFetch` (lines 631-655). -/
def peUpsertPhase (myEmailLower : String) (meta : Meta) (db : Store) : Store :=
  match meta.threadMessages with
  | some ms => ms.foldl (processorUpsertOne myEmailLower) db
  | none => db

/-- One turn of the `for (const nm of newMessages)` loop, accumulating the
Store, the external-call counts and the per-message results. -/
def peLoopStep (env : Env) (metaContext : List Message)
    (acc : Store × Effects × List LoopEntry) (nm : Message) : Store × Effects × List LoopEntry :=
  let r := processNewMessage env metaContext nm acc.1
  (r.2.1, addEff acc.2.1 r.2.2, acc.2.2 ++ [r.1])

/-- `postEmailFetch(meta, full, options)` from `process_mail.js`. -/
def postEmailFetch (env : Env) (meta : Meta) (db0 : Store) : PostResult × Store × Effects :=
  let db1 := peUpsertPhase (lowerStr env.myEmail) meta db0
  match meta.threadId with
  | none => ({ handled := true, reason := some "no_thread_id", results := [] }, db1, zeroEff)
  | some tid =>
    let threadMessages := getThreadMessages db1 tid
    let newMessages := threadMessages.filter (fun m => decide (m.status = some Status.new) && !m.sentByUs)
    if newMessages.isEmpty then
      ({ handled := true, reason := some "no_new_user_messages", results := [] }, db1, zeroEff)
    else
      let metaContext0 := meta.contextForLLM.getD []
      let latestFull := threadMessages.getLastD emptyMessage
      let metaContext :=
        if metaContext0.isEmpty ∨ ¬ ((metaContext0.getLastD emptyMessage).id = latestFull.id) then
          metaContext0 ++ [latestFull]
        else metaContext0
      let out := newMessages.foldl (peLoopStep env metaContext) (db1, zeroEff, [])
      ({ handled := true, reason := none, results := out.2.2 }, out.1, out.2.1)

/-! ## Concrete fixtures used by witnesses and counterexamples -/

def tIn (id tid : String) (d : Nat) (st : Option Status) : Message :=
  { emptyMessage with
    id := id
    threadId := tid
    from_ := "Alice <alice@example.com>"
    subject := "Hi"
    snippet := "q"
    date := d
    sentByUs := false
    status := st }

def tOut (id tid : String) (d : Nat) (st : Option Status) : Message :=
  { emptyMessage with
    id := id
    threadId := tid
    from_ := "Bot <owner@example.com>"
    subject := "Re: Hi"
    snippet := "r"
    date := d
    sentByUs := true
    status := st }

def tEnv : Env :=
  { myEmail := "owner@example.com", gmailPresent := true, llm := LlmOutcome.failure,
    send := SendOutcome.success "s1" (some "t1"), sentHeader := some "<s1@mail>",
    ourFromHeader := none, now := 100 }

def tEnvOK : Env :=
  { tEnv with llm := LlmOutcome.output "\x7b\"reply\":\"Thanks\",\"requires_human_review\":false,\"reason\":\"\",\"filled_fields\":[]\x7d" }

def tEnvSendFail : Env := { tEnvOK with send := SendOutcome.failure "boom" }

def tDB : Store :=
  { messages := [("o1", tOut "o1" "t1" 1 (some Status.sent)), ("m2", tIn "m2" "t1" 2 (some Status.new))],
    threads := [("t1", ["o1", "m2"])] }

def tDB2 : Store :=
  { messages := [("m1", tIn "m1" "t1" 1 (some Status.new)), ("m2", tIn "m2" "t1" 2 (some Status.new))],
    threads := [("t1", ["m1", "m2"])] }

/-! ## Association-list lemmas -/

theorem getEntry_setEntry_self {α : Type} (l : List (String × α)) (k : String) (v : α) :
    getEntry (setEntry l k v) k = some v := by
  induction l with
  | nil => simp [setEntry, getEntry]
  | cons p rest ih =>
    by_cases h : p.1 = k
    · simp [setEntry, h, getEntry]
    · simp [setEntry, h, getEntry, ih]

theorem getEntry_setEntry_ne {α : Type} (l : List (String × α)) (k k' : String) (v : α)
    (h : ¬ k' = k) : getEntry (setEntry l k v) k' = getEntry l k' := by
  have h2 : ¬ k = k' := fun hh => h hh.symm
  induction l with
  | nil => simp [setEntry, getEntry, h2]
  | cons p rest ih =>
    by_cases hp : p.1 = k
    · subst hp
      have h3 : ¬ p.1 = k' := h2
      simp [setEntry, getEntry, h3]
    · by_cases hp' : p.1 = k'
      · simp [setEntry, hp, getEntry, hp', h]
      · simp [setEntry, hp, getEntry, hp', ih]

theorem map_fst_setEntry_of_mem {α : Type} (l : List (String × α)) (k : String) (v : α)
    (h : k ∈ l.map Prod.fst) : (setEntry l k v).map Prod.fst = l.map Prod.fst := by
  induction l with
  | nil => simp at h
  | cons p rest ih =>
    by_cases hp : p.1 = k
    · simp [setEntry, hp]
    · have hr : k ∈ rest.map Prod.fst := by
        rcases List.mem_map.1 h with ⟨q, hq, hk⟩
        rcases List.mem_cons.1 hq with hq1 | hq2
        · exact absurd (hq1 ▸ hk) hp
        · exact List.mem_map.2 ⟨q, hq2, hk⟩
      simp [setEntry, hp, ih hr]

theorem map_fst_setEntry_of_not_mem {α : Type} (l : List (String × α)) (k : String) (v : α)
    (h : ¬ k ∈ l.map Prod.fst) : (setEntry l k v).map Prod.fst = l.map Prod.fst ++ [k] := by
  induction l with
  | nil => simp [setEntry]
  | cons p rest ih =>
    have hp : ¬ p.1 = k := fun hh => h (List.mem_map.2 ⟨p, List.mem_cons_self p rest, hh⟩)
    have hr : ¬ k ∈ rest.map Prod.fst := by
      intro hm
      rcases List.mem_map.1 hm with ⟨q, hq, hk⟩
      exact h (List.mem_map.2 ⟨q, List.mem_cons_of_mem _ hq, hk⟩)
    simp [setEntry, hp, ih hr]

theorem getEntry_eq_none_of_not_mem {α : Type} (l : List (String × α)) (k : String)
    (h : ¬ k ∈ l.map Prod.fst) : getEntry l k = none := by
  induction l with
  | nil => rfl
  | cons p rest ih =>
    have hp : ¬ p.1 = k := fun hh => h (List.mem_map.2 ⟨p, List.mem_cons_self p rest, hh⟩)
    have hr : ¬ k ∈ rest.map Prod.fst := by
      intro hm
      rcases List.mem_map.1 hm with ⟨q, hq, hk⟩
      exact h (List.mem_map.2 ⟨q, List.mem_cons_of_mem _ hq, hk⟩)
    simp [getEntry, hp, ih hr]

theorem mem_of_getEntry_some {α : Type} {l : List (String × α)} {k : String} {v : α}
    (h : getEntry l k = some v) : k ∈ l.map Prod.fst := by
  by_contra hm
  rw [getEntry_eq_none_of_not_mem l k hm] at h
  exact Option.noConfusion h

theorem nodup_map_fst_setEntry {α : Type} (l : List (String × α)) (k : String) (v : α)
    (h : (l.map Prod.fst).Nodup) : ((setEntry l k v).map Prod.fst).Nodup := by
  by_cases hm : k ∈ l.map Prod.fst
  · rw [map_fst_setEntry_of_mem l k v hm]; exact h
  · rw [map_fst_setEntry_of_not_mem l k v hm, List.nodup_append]
    refine ⟨h, List.nodup_singleton k, ?_⟩
    intro a ha hb
    rw [List.mem_singleton] at hb
    subst hb
    exact hm ha

theorem mem_setEntry {α : Type} {l : List (String × α)} {k : String} {v : α} {p : String × α}
    (h : p ∈ setEntry l k v) : p ∈ l ∨ p = (k, v) := by
  induction l with
  | nil => simpa [setEntry] using h
  | cons q rest ih =>
    by_cases hq : q.1 = k
    · have he : setEntry (q :: rest) k v = (k, v) :: rest := by simp [setEntry, hq]
      rw [he] at h
      rcases List.mem_cons.1 h with h1 | h2
      · exact Or.inr h1
      · exact Or.inl (List.mem_cons_of_mem _ h2)
    · have he : setEntry (q :: rest) k v = q :: setEntry rest k v := by simp [setEntry, hq]
      rw [he] at h
      rcases List.mem_cons.1 h with h1 | h2
      · exact Or.inl (h1 ▸ List.mem_cons_self q rest)
      · rcases ih h2 with h3 | h4
        · exact Or.inl (List.mem_cons_of_mem _ h3)
        · exact Or.inr h4

/-! ## Store-level lemmas -/

theorem getMsg_setMsg_self (db : Store) (k : String) (m : Message) :
    getMsg (setMsg db k m) k = some m := getEntry_setEntry_self db.messages k m

theorem getMsg_setMsg_ne (db : Store) (k k' : String) (m : Message) (h : ¬ k' = k) :
    getMsg (setMsg db k m) k' = getMsg db k' := getEntry_setEntry_ne db.messages k k' m h

theorem statusOf_setMsg_self (db : Store) (k : String) (m : Message) :
    statusOf (setMsg db k m) k = m.status := by
  simp [statusOf, getMsg_setMsg_self]

theorem statusOf_setMsg_ne (db : Store) (k k' : String) (m : Message) (h : ¬ k' = k) :
    statusOf (setMsg db k m) k' = statusOf db k' := by
  simp [statusOf, getMsg_setMsg_ne db k k' m h]

theorem pushThreadId_messages (db : Store) (tid id : String) :
    (pushThreadId db tid id).messages = db.messages := by
  by_cases h : id ∈ getThreadIds db tid <;> simp [pushThreadId, h]

theorem getMsg_pushThreadId (db : Store) (tid id k : String) :
    getMsg (pushThreadId db tid id) k = getMsg db k := by
  simp [getMsg, pushThreadId_messages]

theorem statusOf_pushThreadId (db : Store) (tid id k : String) :
    statusOf (pushThreadId db tid id) k = statusOf db k := by
  simp [statusOf, getMsg_pushThreadId]

theorem setMsg_threads (db : Store) (k : String) (m : Message) :
    (setMsg db k m).threads = db.threads := rfl

/-! ## The status transition table (spec §4.5)

`tableStep a b` holds when a persisted status may move from `a` to `b` in a
single operation according to the table: stay put, be created as `new` or
`sent`, or move `new → responded` / `new → human_review`. -/

def tableStep (a b : Option Status) : Prop :=
  b = a
  ∨ (a = none ∧ (b = some Status.new ∨ b = some Status.sent))
  ∨ (a = some Status.new ∧ (b = some Status.responded ∨ b = some Status.human_review))

/-- The transitions actually realised by the code: the table, plus the
failure-path marking that may send any current status to `human_review`. -/
def amendedStep (a b : Option Status) : Prop :=
  tableStep a b ∨ b = some Status.human_review

/-! ## Per-operation status lemmas -/

theorem pollerUpsertOne_status_self (db : Store) (mm : MsgMeta) :
    statusOf (pollerUpsertOne db mm) mm.id =
      some (match statusOf db mm.id with
            | some s => s
            | none => if mm.sentByUs then Status.sent else Status.new) := by
  simp only [pollerUpsertOne, statusOf, getMsg_pushThreadId, getMsg_setMsg_self, Option.some_bind]

theorem pollerUpsertOne_status_ne (db : Store) (mm : MsgMeta) (id : String) (h : ¬ id = mm.id) :
    statusOf (pollerUpsertOne db mm) id = statusOf db id := by
  simp only [pollerUpsertOne, statusOf_pushThreadId]
  exact statusOf_setMsg_ne db mm.id id _ h

theorem processorUpsertOne_status_self (e : String) (db : Store) (m : Message) :
    statusOf (processorUpsertOne e db m) m.id =
      some (match statusOf db m.id with
            | some s => s
            | none =>
              if m.sentByUs || strIncludes (lowerStr m.from_) e then Status.sent else Status.new) := by
  simp only [processorUpsertOne, statusOf, getMsg_pushThreadId, getMsg_setMsg_self, Option.some_bind]

theorem processorUpsertOne_status_ne (e : String) (db : Store) (m : Message) (id : String)
    (h : ¬ id = m.id) : statusOf (processorUpsertOne e db m) id = statusOf db id := by
  simp only [processorUpsertOne, statusOf_pushThreadId]
  exact statusOf_setMsg_ne db m.id id _ h

theorem pollerUpsertOne_tableStep (db : Store) (mm : MsgMeta) (id : String) :
    tableStep (statusOf db id) (statusOf (pollerUpsertOne db mm) id) := by
  by_cases h : id = mm.id
  · subst h
    rw [pollerUpsertOne_status_self]
    rcases hs : statusOf db mm.id with _ | s
    · cases hb : mm.sentByUs <;> simp [tableStep, hb]
    · simp [tableStep]
  · rw [pollerUpsertOne_status_ne db mm id h]
    exact Or.inl rfl

theorem processorUpsertOne_tableStep (e : String) (db : Store) (m : Message) (id : String) :
    tableStep (statusOf db id) (statusOf (processorUpsertOne e db m) id) := by
  by_cases h : id = m.id
  · subst h
    rw [processorUpsertOne_status_self]
    rcases hs : statusOf db m.id with _ | s
    · cases hb : (m.sentByUs || strIncludes (lowerStr m.from_) e) <;> simp [tableStep, hb]
    · simp [tableStep]
  · rw [processorUpsertOne_status_ne e db m id h]
    exact Or.inl rfl

theorem insertSentRecordRM_tableStep (env : Env) (db : Store) (sid : String)
    (sthread : Option String) (replyT replySubject : String) (sentHeader : Option String)
    (threadIdR : String) (id : String) :
    tableStep (statusOf db id)
      (statusOf (insertSentRecordRM env db sid sthread replyT replySubject sentHeader threadIdR) id) := by
  unfold insertSentRecordRM
  rcases hx : getMsg db sid with _ | ex
  · by_cases h : id = sid
    · subst h
      have ha : statusOf db id = none := by simp [statusOf, hx]
      rw [ha, statusOf_pushThreadId, statusOf_setMsg_self]
      exact Or.inr (Or.inl ⟨rfl, Or.inr rfl⟩)
    · rw [statusOf_pushThreadId, statusOf_setMsg_ne db sid id _ h]
      exact Or.inl rfl
  · by_cases h : id = sid
    · subst h
      have ha : statusOf db id = ex.status := by simp [statusOf, hx]
      rw [ha, statusOf_setMsg_self]
      rcases hs : ex.status with _ | s
      · exact Or.inr (Or.inl ⟨rfl, Or.inr rfl⟩)
      · exact Or.inl rfl
    · rw [statusOf_setMsg_ne db sid id _ h]
      exact Or.inl rfl

theorem insertSentRecordPM_tableStep (env : Env) (db : Store) (sid : String)
    (resp : RespondResult) (nm : Message) (id : String) :
    tableStep (statusOf db id) (statusOf (insertSentRecordPM env db sid resp nm) id) := by
  unfold insertSentRecordPM
  rcases hx : getMsg db sid with _ | ex
  · by_cases h : id = sid
    · subst h
      have ha : statusOf db id = none := by simp [statusOf, hx]
      rw [ha, statusOf_pushThreadId, statusOf_setMsg_self]
      exact Or.inr (Or.inl ⟨rfl, Or.inr rfl⟩)
    · rw [statusOf_pushThreadId, statusOf_setMsg_ne db sid id _ h]
      exact Or.inl rfl
  · by_cases h : id = sid
    · subst h
      have ha : statusOf db id = ex.status := by simp [statusOf, hx]
      rw [ha, statusOf_setMsg_self]
      rcases hs : ex.status with _ | s
      · exact Or.inr (Or.inl ⟨rfl, Or.inr rfl⟩)
      · exact Or.inl rfl
    · rw [statusOf_setMsg_ne db sid id _ h]
      exact Or.inl rfl


/-! ## Lemmas about the marking folds -/

theorem foldl_preserve {σ : Type} {P : σ → Prop} (f : σ → Message → σ)
    (hf : ∀ d m, P d → P (f d m)) : ∀ (l : List Message) (d : σ), P d → P (l.foldl f d)
  | [], _, h => h
  | m :: rest, d, h => foldl_preserve f hf rest (f d m) (hf d m h)

theorem isSome_getMsg_setMsg (db : Store) (k id : String) (m : Message)
    (h : (getMsg db id).isSome) : (getMsg (setMsg db k m) id).isSome := by
  by_cases hk : id = k
  · subst hk; rw [getMsg_setMsg_self]; rfl
  · rw [getMsg_setMsg_ne db k id m hk]; exact h

theorem markCtxStep_getMsg_ne (r : String) (raw : Option String) (d : Store) (m : Message)
    (id : String) (h : ¬ id = m.id) : getMsg (markCtxStep r raw d m) id = getMsg d id := by
  unfold markCtxStep
  rcases hx : getMsg d m.id with _ | ex
  · rfl
  · exact getMsg_setMsg_ne d m.id id _ h

theorem markCtxStep_presence (r : String) (raw : Option String) (d : Store) (m : Message)
    (id : String) (h : (getMsg d id).isSome) : (getMsg (markCtxStep r raw d m) id).isSome := by
  unfold markCtxStep
  rcases hx : getMsg d m.id with _ | ex
  · exact h
  · exact isSome_getMsg_setMsg d m.id id _ h

theorem markCtxStep_threads (r : String) (raw : Option String) (d : Store) (m : Message) :
    (markCtxStep r raw d m).threads = d.threads := by
  unfold markCtxStep
  rcases hx : getMsg d m.id with _ | ex
  · rfl
  · rfl

/-- What it means for `id` to have been marked by the failure path. -/
def markedHR (r : String) (raw : Option String) (id : String) (d : Store) : Prop :=
  ∃ ex2, getMsg d id = some ex2 ∧ ex2.status = some Status.human_review ∧
    ex2.humanReviewReason = some r ∧ ∀ s, raw = some s → ex2.llm_raw = some s

theorem markCtxStep_marked_preserve (r : String) (raw : Option String) (d : Store) (m : Message)
    (id : String) (h : markedHR r raw id d) : markedHR r raw id (markCtxStep r raw d m) := by
  rcases h with ⟨ex2, hg, hs, hr, hraw⟩
  by_cases hid : id = m.id
  · have hg' : getMsg d m.id = some ex2 := by rw [← hid]; exact hg
    simp only [markCtxStep, hg', hid, markedHR, getMsg_setMsg_self]
    exact ⟨_, rfl, rfl, rfl, fun s hs2 => by subst hs2; rfl⟩
  · rw [markedHR]
    rw [markCtxStep_getMsg_ne r raw d m id hid]
    exact ⟨ex2, hg, hs, hr, hraw⟩

theorem markCtxStep_marks (r : String) (raw : Option String) (d : Store) (m : Message)
    (h : (getMsg d m.id).isSome) : markedHR r raw m.id (markCtxStep r raw d m) := by
  rcases hx : getMsg d m.id with _ | ex
  · rw [hx] at h; exact absurd h (by simp)
  · unfold markCtxStep
    rw [hx]
    refine ⟨_, getMsg_setMsg_self d m.id _, rfl, rfl, ?_⟩
    intro s hs2
    subst hs2
    rfl

theorem markCtx_getMsg_not_mem (db : Store) (ctx : List Message) (r : String)
    (raw : Option String) (id : String) (h : ∀ m ∈ ctx, ¬ m.id = id) :
    getMsg (markCtxHumanReview db ctx r raw) id = getMsg db id := by
  induction ctx generalizing db with
  | nil => rfl
  | cons m rest ih =>
    rw [markCtxHumanReview, List.foldl_cons, ← markCtxHumanReview]
    rw [ih (markCtxStep r raw db m) (fun m' hm' => h m' (List.mem_cons_of_mem _ hm'))]
    exact markCtxStep_getMsg_ne r raw db m id
      (fun hh => h m (List.mem_cons_self m rest) (hh ▸ rfl))

theorem markCtx_presence (db : Store) (ctx : List Message) (r : String) (raw : Option String)
    (id : String) (h : (getMsg db id).isSome) :
    (getMsg (markCtxHumanReview db ctx r raw) id).isSome :=
  foldl_preserve (markCtxStep r raw) (fun d m hd => markCtxStep_presence r raw d m id hd) ctx db h

theorem markCtx_threads (db : Store) (ctx : List Message) (r : String) (raw : Option String) :
    (markCtxHumanReview db ctx r raw).threads = db.threads :=
  foldl_preserve (markCtxStep r raw)
    (fun d m (hd : d.threads = db.threads) => (markCtxStep_threads r raw d m).trans hd) ctx db rfl

theorem markCtx_marked (db : Store) (ctx : List Message) (r : String) (raw : Option String)
    (id : String) (hm : ∃ m ∈ ctx, m.id = id) (hp : (getMsg db id).isSome) :
    markedHR r raw id (markCtxHumanReview db ctx r raw) := by
  induction ctx generalizing db with
  | nil => rcases hm with ⟨m, hmem, _⟩; exact absurd hmem (List.not_mem_nil m)
  | cons m rest ih =>
    rw [markCtxHumanReview, List.foldl_cons, ← markCtxHumanReview]
    by_cases hmid : m.id = id
    · by_cases hrest : ∃ m' ∈ rest, m'.id = id
      · exact ih (markCtxStep r raw db m) hrest (markCtxStep_presence r raw db m id hp)
      · have h1 : markedHR r raw id (markCtxStep r raw db m) := by
          have := markCtxStep_marks r raw db m (by rw [hmid]; exact hp)
          rwa [hmid] at this
        exact foldl_preserve (markCtxStep r raw)
          (fun d m' hd => markCtxStep_marked_preserve r raw d m' id hd) rest _ h1
    · rcases hm with ⟨m', hmem, hm'⟩
      rcases List.mem_cons.1 hmem with h1 | h2
      · exact absurd (h1 ▸ hm') hmid
      · exact ih (markCtxStep r raw db m) ⟨m', h2, hm'⟩ (markCtxStep_presence r raw db m id hp)

theorem markCtx_status (db : Store) (ctx : List Message) (r : String) (raw : Option String)
    (id : String) :
    statusOf (markCtxHumanReview db ctx r raw) id = statusOf db id ∨
      statusOf (markCtxHumanReview db ctx r raw) id = some Status.human_review := by
  by_cases hm : ∃ m ∈ ctx, m.id = id
  · by_cases hp : (getMsg db id).isSome
    · rcases markCtx_marked db ctx r raw id hm hp with ⟨ex2, hg, hs, _⟩
      right
      simp [statusOf, hg, hs]
    · -- absent records are never created by the marking loop
      left
      have hnone : getMsg db id = none := by
        rcases hq : getMsg db id with _ | ex
        · rfl
        · rw [hq] at hp; exact absurd rfl hp
      have : getMsg (markCtxHumanReview db ctx r raw) id = none := by
        have hpres : ∀ (l : List Message) (d : Store), getMsg d id = none →
            getMsg (markCtxHumanReview d l r raw) id = none := by
          intro l
          induction l with
          | nil => intro d hd; exact hd
          | cons m rest ih2 =>
            intro d hd
            rw [markCtxHumanReview, List.foldl_cons, ← markCtxHumanReview]
            refine ih2 (markCtxStep r raw d m) ?_
            by_cases hid : id = m.id
            · subst hid
              unfold markCtxStep
              rw [hd]
              exact hd
            · rw [markCtxStep_getMsg_ne r raw d m id hid]
              exact hd
        exact hpres ctx db hnone
      simp [statusOf, this, hnone]
  · left
    have h' : ∀ m ∈ ctx, ¬ m.id = id := fun m hmem hh => hm ⟨m, hmem, hh⟩
    simp [statusOf, markCtx_getMsg_not_mem db ctx r raw id h']

theorem markRespondedStep_getMsg_ne (a b c : String) (n : Nat) (lr : String) (p : Json)
    (d : Store) (m : Message) (id : String) (h : ¬ id = m.id) :
    getMsg (markRespondedStep a b c n lr p d m) id = getMsg d id := by
  unfold markRespondedStep
  rcases hx : getMsg d m.id with _ | ex
  · rfl
  · exact getMsg_setMsg_ne d m.id id _ h

theorem markRespondedStep_presence (a b c : String) (n : Nat) (lr : String) (p : Json)
    (d : Store) (m : Message) (id : String) (h : (getMsg d id).isSome) :
    (getMsg (markRespondedStep a b c n lr p d m) id).isSome := by
  unfold markRespondedStep
  rcases hx : getMsg d m.id with _ | ex
  · exact h
  · exact isSome_getMsg_setMsg d m.id id _ h

theorem markRespondedStep_threads (a b c : String) (n : Nat) (lr : String) (p : Json)
    (d : Store) (m : Message) : (markRespondedStep a b c n lr p d m).threads = d.threads := by
  unfold markRespondedStep
  rcases hx : getMsg d m.id with _ | ex
  · rfl
  · rfl

theorem markRespondedStep_status_self (a b c : String) (n : Nat) (lr : String) (p : Json)
    (d : Store) (m : Message) :
    statusOf (markRespondedStep a b c n lr p d m) m.id = statusOf d m.id ∨
      statusOf (markRespondedStep a b c n lr p d m) m.id = some Status.responded := by
  unfold markRespondedStep
  rcases hx : getMsg d m.id with _ | ex
  · exact Or.inl rfl
  · exact Or.inr (statusOf_setMsg_self d m.id _)

theorem respondedFold_rel (a b c : String) (n : Nat) (lr : String) (p : Json) :
    ∀ (l : List Message) (db : Store) (id : String),
      (∀ m ∈ l, statusOf db m.id = some Status.new ∨ statusOf db m.id = some Status.responded) →
      statusOf (l.foldl (markRespondedStep a b c n lr p) db) id = statusOf db id ∨
        (statusOf db id = some Status.new ∧
          statusOf (l.foldl (markRespondedStep a b c n lr p) db) id = some Status.responded) := by
  intro l
  induction l with
  | nil => intro db id _; exact Or.inl rfl
  | cons m rest ih =>
    intro db id Hl
    rw [List.foldl_cons]
    have Hl' : ∀ m' ∈ rest, statusOf (markRespondedStep a b c n lr p db m) m'.id = some Status.new ∨
        statusOf (markRespondedStep a b c n lr p db m) m'.id = some Status.responded := by
      intro m' hm'
      by_cases hmm : m'.id = m.id
      · rw [hmm]
        rcases markRespondedStep_status_self a b c n lr p db m with h1 | h1 <;> rw [h1]
        · rw [← hmm]; exact Hl m' (List.mem_cons_of_mem _ hm')
        · exact Or.inr rfl
      · have : statusOf (markRespondedStep a b c n lr p db m) m'.id = statusOf db m'.id := by
          unfold markRespondedStep
          rcases hx : getMsg db m.id with _ | ex
          · rfl
          · exact statusOf_setMsg_ne db m.id m'.id _ hmm
        rw [this]
        exact Hl m' (List.mem_cons_of_mem _ hm')
    have hne : ¬ id = m.id → statusOf (markRespondedStep a b c n lr p db m) id = statusOf db id := by
      intro hid
      unfold markRespondedStep
      rcases hx : getMsg db m.id with _ | ex
      · rfl
      · exact statusOf_setMsg_ne db m.id id _ hid
    rcases ih (markRespondedStep a b c n lr p db m) id Hl' with h2 | h2
    · rw [h2]
      by_cases hid : id = m.id
      · rw [hid]
        rcases markRespondedStep_status_self a b c n lr p db m with h3 | h3 <;> rw [h3]
        · exact Or.inl rfl
        · rcases Hl m (List.mem_cons_self m rest) with h4 | h4
          · right
            exact ⟨h4, rfl⟩
          · left
            exact h4.symm
      · rw [hne hid]
        exact Or.inl rfl
    · rcases h2 with ⟨h2a, h2b⟩
      by_cases hid : id = m.id
      · rcases markRespondedStep_status_self a b c n lr p db m with h3 | h3
        · right
          refine ⟨?_, h2b⟩
          rw [hid]
          rw [hid] at h2a
          rw [h3] at h2a
          exact h2a
        · rw [hid, h3] at h2a
          exact absurd h2a (by simp)
      · rw [hne hid] at h2a
        exact Or.inr ⟨h2a, h2b⟩

theorem markResponded_tableStep (db : Store) (ft : List Message) (a b c : String) (n : Nat)
    (lr : String) (p : Json) (id : String)
    (H : ∀ m ∈ ft, m.status = some Status.new → m.sentByUs = false →
      statusOf db m.id = some Status.new ∨ statusOf db m.id = some Status.responded) :
    tableStep (statusOf db id) (statusOf (markResponded db ft a b c n lr p) id) := by
  unfold markResponded
  have Hl : ∀ m ∈ ft.filter (fun x => decide (x.status = some Status.new) && !x.sentByUs),
      statusOf db m.id = some Status.new ∨ statusOf db m.id = some Status.responded := by
    intro m hm
    rcases List.mem_filter.1 hm with ⟨hmem, hp⟩
    simp only [Bool.and_eq_true, decide_eq_true_eq, Bool.not_eq_true'] at hp
    exact H m hmem hp.1 hp.2
  rcases respondedFold_rel a b c n lr p _ db id Hl with h | h
  · exact Or.inl h
  · exact Or.inr (Or.inr ⟨h.1, Or.inl h.2⟩)

theorem markResponded_presence (db : Store) (ft : List Message) (a b c : String) (n : Nat)
    (lr : String) (p : Json) (id : String) (h : (getMsg db id).isSome) :
    (getMsg (markResponded db ft a b c n lr p) id).isSome :=
  foldl_preserve (markRespondedStep a b c n lr p)
    (fun d m hd => markRespondedStep_presence a b c n lr p d m id hd) _ db h

theorem markResponded_threads (db : Store) (ft : List Message) (a b c : String) (n : Nat)
    (lr : String) (p : Json) : (markResponded db ft a b c n lr p).threads = db.threads :=
  foldl_preserve (markRespondedStep a b c n lr p)
    (fun d m (hd : d.threads = db.threads) =>
      (markRespondedStep_threads a b c n lr p d m).trans hd) _ db rfl

/-! ## Sorting and windowing lemmas -/

theorem getLastD_mem (l : List Message) (d : Message) (h : ¬ l = []) : l.getLastD d ∈ l := by
  rw [List.getLastD_eq_getLast?, List.getLast?_eq_getLast_of_ne_nil h]
  simpa using List.getLast_mem h

theorem sorted_le_getLastD :
    ∀ {l : List Message}, List.Sorted dateLe l → ∀ {x : Message}, x ∈ l → ∀ (d : Message),
      x.date ≤ (l.getLastD d).date := by
  intro l
  induction l with
  | nil => intro _ x hx; exact absurd hx (List.not_mem_nil x)
  | cons a t ih =>
    intro hs x hx d
    rw [List.getLastD_cons]
    rcases List.sorted_cons.1 hs with ⟨ha, ht⟩
    rcases List.mem_cons.1 hx with h1 | h2
    · subst h1
      rcases hts : t with _ | ⟨b, t'⟩
      · simp [List.getLastD]
      · have hne : ¬ (b :: t') = [] := by simp
        have hmem : (b :: t').getLastD x ∈ b :: t' := getLastD_mem (b :: t') x hne
        exact ha _ (hts ▸ hmem)
    · exact ih ht h2 a

theorem sortByDate_getLastD_eq {l : List Message} {x : Message} (hx : x ∈ l)
    (hmax : ∀ y ∈ l, y.date ≤ x.date) (huniq : ∀ y ∈ l, y.date = x.date → y = x) :
    (sortByDate l).getLastD emptyMessage = x := by
  have hperm : (sortByDate l).Perm l := List.perm_insertionSort dateLe l
  have hsorted : List.Sorted dateLe (sortByDate l) := List.sorted_insertionSort dateLe l
  have hxs : x ∈ sortByDate l := hperm.mem_iff.2 hx
  have hne : ¬ sortByDate l = [] := by
    intro h
    rw [h] at hxs
    exact absurd hxs (List.not_mem_nil x)
  have hlmem : (sortByDate l).getLastD emptyMessage ∈ l :=
    hperm.mem_iff.1 (getLastD_mem (sortByDate l) emptyMessage hne)
  have h1 : ((sortByDate l).getLastD emptyMessage).date ≤ x.date := hmax _ hlmem
  have h2 : x.date ≤ ((sortByDate l).getLastD emptyMessage).date :=
    sorted_le_getLastD hsorted hxs emptyMessage
  exact huniq _ hlmem (Nat.le_antisymm h1 h2)

theorem drop_length_sub_one :
    ∀ {l : List Message} {x : Message}, l.getLast? = some x → l.drop (l.length - 1) = [x] := by
  intro l
  induction l with
  | nil => intro x h; exact absurd h (by simp)
  | cons a t ih =>
    intro x h
    rcases hts : t with _ | ⟨b, t'⟩
    · subst hts
      simp at h
      subst h
      rfl
    · subst hts
      rw [List.getLast?_cons_cons] at h
    -- length (a :: b :: t') - 1 = t'.length + 1
      have hlen : (a :: b :: t').length - 1 = t'.length + 1 := by simp
      rw [hlen, List.drop_succ_cons]
      have hlen2 : t'.length = (b :: t').length - 1 := by simp
      rw [hlen2]
      exact ih h

theorem filter_getLast? {p : Message → Bool} :
    ∀ {l : List Message} {z : Message}, l.getLast? = some z → p z = true →
      (l.filter p).getLast? = some z := by
  intro l
  induction l with
  | nil => intro z h; exact absurd h (by simp)
  | cons a t ih =>
    intro z h hz
    rcases hts : t with _ | ⟨b, t'⟩
    · subst hts
      simp at h
      subst h
      simp [List.filter, hz]
    · subst hts
      rw [List.getLast?_cons_cons] at h
      have ihz := ih h hz
      by_cases hpa : p a = true
      · rw [List.filter_cons_of_pos hpa]
        rcases hfs : (b :: t').filter p with _ | ⟨c, cs⟩
        · rw [hfs] at ihz
          exact absurd ihz (by simp)
        · rw [hfs] at ihz
          rw [List.getLast?_cons_cons]
          exact ihz
      · rw [List.filter_cons_of_neg (by simpa using hpa)]
        exact ihz

theorem filter_two_ids_length :
    ∀ (l : List Message) (k1 k2 : String), ((l.map (fun m => m.id)).Nodup) → ¬ k1 = k2 →
      (l.filter (fun m => decide (m.id ∈ [k1, k2]))).length =
        (if k1 ∈ l.map (fun m => m.id) then 1 else 0) +
          (if k2 ∈ l.map (fun m => m.id) then 1 else 0) := by
  intro l
  induction l with
  | nil => intro k1 k2 _ _; simp
  | cons m t ih =>
    intro k1 k2 hn h12
    rw [List.map_cons, List.nodup_cons] at hn
    rcases hn with ⟨hnm, hnt⟩
    have hmem1 : k1 ∈ List.map (fun m => m.id) (m :: t) ↔
        (m.id = k1 ∨ k1 ∈ List.map (fun m => m.id) t) := by
      rw [List.map_cons, List.mem_cons]
      constructor
      · rintro (hh | hh)
        · exact Or.inl hh.symm
        · exact Or.inr hh
      · rintro (hh | hh)
        · exact Or.inl hh.symm
        · exact Or.inr hh
    have hmem2 : k2 ∈ List.map (fun m => m.id) (m :: t) ↔
        (m.id = k2 ∨ k2 ∈ List.map (fun m => m.id) t) := by
      rw [List.map_cons, List.mem_cons]
      constructor
      · rintro (hh | hh)
        · exact Or.inl hh.symm
        · exact Or.inr hh
      · rintro (hh | hh)
        · exact Or.inl hh.symm
        · exact Or.inr hh
    by_cases h1 : m.id = k1
    · have hk1t : ¬ k1 ∈ t.map (fun m => m.id) := h1 ▸ hnm
      have hf : List.filter (fun m => decide (m.id ∈ [k1, k2])) (m :: t) =
          m :: List.filter (fun m => decide (m.id ∈ [k1, k2])) t := by
        simp [List.filter_cons, h1]
      have hk2iff : k2 ∈ List.map (fun m => m.id) (m :: t) ↔ k2 ∈ List.map (fun m => m.id) t := by
        rw [hmem2]
        constructor
        · rintro (hh | hh)
          · exact absurd (h1.symm.trans hh) h12
          · exact hh
        · exact Or.inr
      rw [hf, List.length_cons, ih k1 k2 hnt h12, if_neg hk1t, if_pos (hmem1.2 (Or.inl h1))]
      by_cases hc2 : k2 ∈ List.map (fun m => m.id) t
      · rw [if_pos hc2, if_pos (hk2iff.2 hc2)]
      · rw [if_neg hc2, if_neg (fun hh => hc2 (hk2iff.1 hh))]
    · by_cases h2 : m.id = k2
      · have hk2t : ¬ k2 ∈ t.map (fun m => m.id) := h2 ▸ hnm
        have hf : List.filter (fun m => decide (m.id ∈ [k1, k2])) (m :: t) =
            m :: List.filter (fun m => decide (m.id ∈ [k1, k2])) t := by
          simp [List.filter_cons, h2]
        have hk1iff : k1 ∈ List.map (fun m => m.id) (m :: t) ↔ k1 ∈ List.map (fun m => m.id) t := by
          rw [hmem1]
          constructor
          · rintro (hh | hh)
            · exact absurd (h2.symm.trans hh) (fun hq => h12 hq.symm)
            · exact hh
          · exact Or.inr
        rw [hf, List.length_cons, ih k1 k2 hnt h12, if_neg hk2t, if_pos (hmem2.2 (Or.inl h2))]
        by_cases hc1 : k1 ∈ List.map (fun m => m.id) t
        · rw [if_pos hc1, if_pos (hk1iff.2 hc1)]
        · rw [if_neg hc1, if_neg (fun hh => hc1 (hk1iff.1 hh))]
      · have hf : List.filter (fun m => decide (m.id ∈ [k1, k2])) (m :: t) =
            List.filter (fun m => decide (m.id ∈ [k1, k2])) t := by
          simp [List.filter_cons, List.mem_cons, h1, h2]
        have hk1iff : k1 ∈ List.map (fun m => m.id) (m :: t) ↔ k1 ∈ List.map (fun m => m.id) t := by
          rw [hmem1]
          constructor
          · rintro (hh | hh)
            · exact absurd hh h1
            · exact hh
          · exact Or.inr
        have hk2iff : k2 ∈ List.map (fun m => m.id) (m :: t) ↔ k2 ∈ List.map (fun m => m.id) t := by
          rw [hmem2]
          constructor
          · rintro (hh | hh)
            · exact absurd hh h2
            · exact hh
          · exact Or.inr
        rw [hf, ih k1 k2 hnt h12]
        by_cases hc1 : k1 ∈ List.map (fun m => m.id) t
        · rw [if_pos hc1, if_pos (hk1iff.2 hc1)]
          by_cases hc2 : k2 ∈ List.map (fun m => m.id) t
          · rw [if_pos hc2, if_pos (hk2iff.2 hc2)]
          · rw [if_neg hc2, if_neg (fun hh => hc2 (hk2iff.1 hh))]
        · rw [if_neg hc1, if_neg (fun hh => hc1 (hk1iff.1 hh))]
          by_cases hc2 : k2 ∈ List.map (fun m => m.id) t
          · rw [if_pos hc2, if_pos (hk2iff.2 hc2)]
          · rw [if_neg hc2, if_neg (fun hh => hc2 (hk2iff.1 hh))]

/-! ## The no-self-reply guard -/

theorem respond_mail_latest_from_us (env : Env) (thread0 : List Message)
    (toEmail subject : Option String) (db : Store) (hne : ¬ thread0 = [])
    (hfrom : strIncludes (lowerStr ((sortByDate thread0).getLastD emptyMessage).from_)
      (lowerStr env.myEmail) = true) :
    ∃ r : RespondResult, respond_mail env thread0 toEmail subject db = (r, db, zeroEff) ∧
      r.ok = false ∧ r.human_review = false := by
  have hie : thread0.isEmpty = false := by
    cases thread0
    · exact absurd rfl hne
    · rfl
  rw [List.getLastD_eq_getLast?] at hfrom
  by_cases hg : env.gmailPresent
  · refine ⟨{ emptyRespondResult with reason := some "latest_from_us" }, ?_, rfl, rfl⟩
    unfold respond_mail
    simp [hie, hg, hfrom]
  · refine ⟨{ emptyRespondResult with error := some "gmail_client_required" }, ?_, rfl, rfl⟩
    unfold respond_mail
    simp [hie, hg]

theorem processNewMessage_noop (env : Env) (ctx : List Message) (nm : Message) (db : Store)
    (hne : ¬ ctx = [])
    (hfrom : strIncludes (lowerStr ((sortByDate ctx).getLastD emptyMessage).from_)
      (lowerStr env.myEmail) = true) :
    (processNewMessage env ctx nm db).2.1 = db ∧ (processNewMessage env ctx nm db).2.2 = zeroEff := by
  obtain ⟨res, heq, hok, hhr⟩ := respond_mail_latest_from_us env ctx none none db hne hfrom
  unfold processNewMessage
  rcases hx : getMsg db nm.id with _ | r
  · simp [hx, heq, hok, hhr]
  · by_cases hst : r.status = some Status.new
    · simp [hx, hst, heq, hok, hhr]
    · simp [hx, hst]

theorem addEff_zero (a : Effects) : addEff a zeroEff = a := by
  cases a
  simp [addEff, zeroEff]

theorem peLoop_noop (env : Env) (ctx : List Message) (hne : ¬ ctx = [])
    (hfrom : strIncludes (lowerStr ((sortByDate ctx).getLastD emptyMessage).from_)
      (lowerStr env.myEmail) = true) :
    ∀ (l : List Message) (st : Store) (eff : Effects) (rs : List LoopEntry),
      (l.foldl (peLoopStep env ctx) (st, eff, rs)).1 = st ∧
        (l.foldl (peLoopStep env ctx) (st, eff, rs)).2.1 = eff := by
  intro l
  induction l with
  | nil => intro st eff rs; exact ⟨rfl, rfl⟩
  | cons nm rest ih =>
    intro st eff rs
    rw [List.foldl_cons]
    obtain ⟨h1, h2⟩ := processNewMessage_noop env ctx nm st hne hfrom
    have hstep : peLoopStep env ctx (st, eff, rs) nm =
        (st, eff, rs ++ [(processNewMessage env ctx nm st).1]) := by
      simp [peLoopStep, h1, h2, addEff_zero]
    rw [hstep]
    exact ih st eff _

theorem processorUpsertOne_status_preserve (e : String) (db : Store) (m : Message) (id : String)
    (s : Status) (h : statusOf db id = some s) :
    statusOf (processorUpsertOne e db m) id = some s := by
  by_cases hid : id = m.id
  · subst hid
    rw [processorUpsertOne_status_self, h]
  · rw [processorUpsertOne_status_ne e db m id hid]
    exact h

theorem pollerUpsertOne_status_preserve (db : Store) (mm : MsgMeta) (id : String)
    (s : Status) (h : statusOf db id = some s) :
    statusOf (pollerUpsertOne db mm) id = some s := by
  by_cases hid : id = mm.id
  · subst hid
    rw [pollerUpsertOne_status_self, h]
  · rw [pollerUpsertOne_status_ne db mm id hid]
    exact h

theorem peUpsertPhase_status_preserve (e : String) (meta : Meta) (db0 : Store) (id : String)
    (s : Status) (h : statusOf db0 id = some s) :
    statusOf (peUpsertPhase e meta db0) id = some s := by
  unfold peUpsertPhase
  rcases meta.threadMessages with _ | ms
  · exact h
  · exact foldl_preserve (processorUpsertOne e)
      (fun d m hd => processorUpsertOne_status_preserve e d m id s hd) ms db0 h

theorem getThreadMessages_sorted (db : Store) (tid : String) :
    List.Sorted dateLe (getThreadMessages db tid) :=
  List.sorted_insertionSort dateLe _

theorem sortLast_of_ctx (tmsgs ctx' : List Message) (latest : Message)
    (hdates : (tmsgs.map (fun m => m.date)).Nodup)
    (hlmem : latest ∈ tmsgs)
    (hlmax : ∀ y ∈ tmsgs, y.date ≤ latest.date)
    (hsub : ∀ m ∈ ctx', m ∈ tmsgs)
    (hmem : latest ∈ ctx') :
    (sortByDate ctx').getLastD emptyMessage = latest :=
  sortByDate_getLastD_eq hmem (fun y hy => hlmax y (hsub y hy))
    (fun y hy hdate => List.inj_on_of_nodup_map hdates (hsub y hy) hlmem hdate)

/-- The context actually passed to `respond_mail` by `postEmailFetch` (the
poller's compact context, with the thread's latest message appended when
missing) ends, chronologically, with the thread's latest message. -/
theorem metaContext_guard (db1 : Store) (tid : String) (ctx0 : List Message)
    (hne : ¬ getThreadMessages db1 tid = [])
    (hdates : ((getThreadMessages db1 tid).map (fun m => m.date)).Nodup)
    (hids : ((getThreadMessages db1 tid).map (fun m => m.id)).Nodup)
    (hctx : ∀ m ∈ ctx0, m ∈ getThreadMessages db1 tid) :
    ¬ (if ctx0.isEmpty ∨ ¬ (ctx0.getLastD emptyMessage).id =
          ((getThreadMessages db1 tid).getLastD emptyMessage).id then
        ctx0 ++ [(getThreadMessages db1 tid).getLastD emptyMessage] else ctx0) = [] ∧
    (sortByDate (if ctx0.isEmpty ∨ ¬ (ctx0.getLastD emptyMessage).id =
          ((getThreadMessages db1 tid).getLastD emptyMessage).id then
        ctx0 ++ [(getThreadMessages db1 tid).getLastD emptyMessage] else ctx0)).getLastD
      emptyMessage = (getThreadMessages db1 tid).getLastD emptyMessage := by
  have hlmem : (getThreadMessages db1 tid).getLastD emptyMessage ∈ getThreadMessages db1 tid :=
    getLastD_mem _ emptyMessage hne
  have hlmax : ∀ y ∈ getThreadMessages db1 tid,
      y.date ≤ ((getThreadMessages db1 tid).getLastD emptyMessage).date :=
    fun y hy => sorted_le_getLastD (getThreadMessages_sorted db1 tid) hy emptyMessage
  by_cases hcond : ctx0.isEmpty ∨ ¬ (ctx0.getLastD emptyMessage).id =
      ((getThreadMessages db1 tid).getLastD emptyMessage).id
  · rw [if_pos hcond]
    constructor
    · simp
    · refine sortLast_of_ctx _ _ _ hdates hlmem hlmax ?_ ?_
      · intro m hm
        rcases List.mem_append.1 hm with h1 | h2
        · exact hctx m h1
        · rw [List.mem_singleton] at h2
          exact h2 ▸ hlmem
      · exact List.mem_append_right _ (List.mem_singleton.2 rfl)
  · rw [if_neg hcond]
    push_neg at hcond
    rcases hcond with ⟨hc1, hc2⟩
    have hne0 : ¬ ctx0 = [] := by
      intro h
      rw [h] at hc1
      exact hc1 rfl
    have hmem0 : ctx0.getLastD emptyMessage ∈ getThreadMessages db1 tid :=
      hctx _ (getLastD_mem ctx0 emptyMessage hne0)
    have heq : ctx0.getLastD emptyMessage = (getThreadMessages db1 tid).getLastD emptyMessage :=
      List.inj_on_of_nodup_map hids hmem0 hlmem hc2
    constructor
    · exact hne0
    · refine sortLast_of_ctx _ _ _ hdates hlmem hlmax hctx ?_
      rw [← heq]
      exact getLastD_mem ctx0 emptyMessage hne0

/-- C4: for a thread whose chronologically-latest Message is the owning
account's (`sentByUs`, whose ingestion-time definition is the sender check
`hfrom`), processing the thread performs zero reply-generator calls and
zero sends, and no Message's persisted status changes (the upsert pass
preserves statuses; the processing loop leaves the Store untouched). -/
theorem C4_no_self_reply (env : Env) (meta : Meta) (db0 : Store) (tid : String)
    (htid : meta.threadId = some tid)
    (hne : ¬ getThreadMessages (peUpsertPhase (lowerStr env.myEmail) meta db0) tid = [])
    (hsent : ((getThreadMessages (peUpsertPhase (lowerStr env.myEmail) meta db0) tid).getLastD
      emptyMessage).sentByUs = true)
    (hfrom : strIncludes
      (lowerStr ((getThreadMessages (peUpsertPhase (lowerStr env.myEmail) meta db0) tid).getLastD
        emptyMessage).from_) (lowerStr env.myEmail) = true)
    (hdates : ((getThreadMessages (peUpsertPhase (lowerStr env.myEmail) meta db0) tid).map
      (fun m => m.date)).Nodup)
    (hids : ((getThreadMessages (peUpsertPhase (lowerStr env.myEmail) meta db0) tid).map
      (fun m => m.id)).Nodup)
    (hctx : ∀ m ∈ meta.contextForLLM.getD [],
      m ∈ getThreadMessages (peUpsertPhase (lowerStr env.myEmail) meta db0) tid) :
    (postEmailFetch env meta db0).2.2.llmCalls = 0 ∧
      (postEmailFetch env meta db0).2.2.sendCalls = 0 ∧
      (postEmailFetch env meta db0).2.1 = peUpsertPhase (lowerStr env.myEmail) meta db0 ∧
      ∀ id s, statusOf db0 id = some s → statusOf ((postEmailFetch env meta db0).2.1) id = some s := by
  obtain ⟨hcne, hclast⟩ := metaContext_guard (peUpsertPhase (lowerStr env.myEmail) meta db0) tid
    (meta.contextForLLM.getD []) hne hdates hids hctx
  have hcfrom : strIncludes
      (lowerStr ((sortByDate (if (meta.contextForLLM.getD []).isEmpty ∨
          ¬ ((meta.contextForLLM.getD []).getLastD emptyMessage).id =
            ((getThreadMessages (peUpsertPhase (lowerStr env.myEmail) meta db0) tid).getLastD
              emptyMessage).id then
          meta.contextForLLM.getD [] ++
            [(getThreadMessages (peUpsertPhase (lowerStr env.myEmail) meta db0) tid).getLastD
              emptyMessage]
        else meta.contextForLLM.getD [])).getLastD emptyMessage).from_)
      (lowerStr env.myEmail) = true := by
    rw [hclast]
    exact hfrom
  have hres : (postEmailFetch env meta db0).2.1 = peUpsertPhase (lowerStr env.myEmail) meta db0 ∧
      (postEmailFetch env meta db0).2.2 = zeroEff := by
    by_cases hnm : ((getThreadMessages (peUpsertPhase (lowerStr env.myEmail) meta db0) tid).filter
        (fun m => decide (m.status = some Status.new) && !m.sentByUs)).isEmpty
    · constructor <;> simp [postEmailFetch, htid, hnm]
    · obtain ⟨hf1, hf2⟩ := peLoop_noop env _ hcne hcfrom
        ((getThreadMessages (peUpsertPhase (lowerStr env.myEmail) meta db0) tid).filter
          (fun m => decide (m.status = some Status.new) && !m.sentByUs))
        (peUpsertPhase (lowerStr env.myEmail) meta db0) zeroEff []
      constructor
      · rw [show (postEmailFetch env meta db0).2.1 = _ from rfl]
        simp only [postEmailFetch, htid]
        rw [if_neg (by simpa using hnm)]
        exact hf1
      · simp only [postEmailFetch, htid]
        rw [if_neg (by simpa using hnm)]
        exact hf2
  refine ⟨?_, ?_, hres.1, ?_⟩
  · rw [hres.2]
    rfl
  · rw [hres.2]
    rfl
  · intro id s h
    rw [hres.1]
    exact peUpsertPhase_status_preserve (lowerStr env.myEmail) meta db0 id s h

def c4In : Message := tIn "m1" "t1" 1 (some Status.new)

def c4Out : Message := tOut "o2" "t1" 2 (some Status.sent)

def c4DB : Store :=
  { messages := [("m1", c4In), ("o2", c4Out)], threads := [("t1", ["m1", "o2"])] }

def c4Meta : Meta := { threadId := some "t1", threadMessages := none, contextForLLM := none }

theorem C4_no_self_reply_witness :
    (postEmailFetch tEnvOK c4Meta c4DB).2.2.llmCalls = 0 ∧
      (postEmailFetch tEnvOK c4Meta c4DB).2.2.sendCalls = 0 ∧
      (postEmailFetch tEnvOK c4Meta c4DB).2.1 = peUpsertPhase (lowerStr tEnvOK.myEmail) c4Meta c4DB ∧
      statusOf ((postEmailFetch tEnvOK c4Meta c4DB).2.1) "m1" = some Status.new := by
  obtain ⟨h1, h2, h3, h4⟩ := C4_no_self_reply tEnvOK c4Meta c4DB "t1" rfl
    (fun h => List.noConfusion ((rfl :
      getThreadMessages (peUpsertPhase (lowerStr tEnvOK.myEmail) c4Meta c4DB) "t1" =
        [c4In, c4Out]) ▸ h))
    (by rfl) (by rfl) (by decide) (by decide) (by simp [c4Meta])
  exact ⟨h1, h2, h3, h4 "m1" Status.new (by decide)⟩

theorem mem_of_getLast?_eq {l : List Message} {u : Message} (h : l.getLast? = some u) : u ∈ l := by
  have hne : ¬ l = [] := by
    intro hnil
    rw [hnil] at h
    exact Option.noConfusion h
  rw [List.getLast?_eq_getLast_of_ne_nil hne] at h
  exact (Option.some.inj h) ▸ List.getLast_mem hne

/-- `lastInbound` of a thread: its most recent inbound message. -/
def lastInbound (l : List Message) : Option Message :=
  (l.filter (fun m => !m.sentByUs)).getLast?

theorem buildContextForLLM_eq (threadMsgs : List Message) (n m : Nat) :
    buildContextForLLM threadMsgs n m =
      threadMsgs.filter (fun x => decide (x.id ∈
        (sliceNeg (threadMsgs.filter (fun y => y.sentByUs)) m ++
          sliceNeg (threadMsgs.filter (fun y => !y.sentByUs)) n).map (fun y => y.id))) := rfl

/-- C6: with the default window sizes (1 inbound, 1 outbound),
`buildContextForLLM` returns a subsequence of the thread in the thread's own
order, and whenever the thread contains an inbound message the result
contains the most recent inbound message and hence is non-empty. -/
theorem C6_buildContext_guarantee (threadMsgs : List Message) (u : Message)
    (hu : lastInbound threadMsgs = some u) :
    (buildContextForLLM threadMsgs 1 1).Sublist threadMsgs ∧
      u ∈ buildContextForLLM threadMsgs 1 1 ∧
      ¬ buildContextForLLM threadMsgs 1 1 = [] := by
  have husers : sliceNeg (threadMsgs.filter (fun m => !m.sentByUs)) 1 = [u] := by
    unfold sliceNeg
    rw [if_neg (by simp)]
    exact drop_length_sub_one hu
  have hufilter : u ∈ threadMsgs.filter (fun m => !m.sentByUs) := mem_of_getLast?_eq hu
  have humem : u ∈ threadMsgs := List.mem_of_mem_filter hufilter
  have hidmem : u.id ∈ (sliceNeg (threadMsgs.filter (fun y => y.sentByUs)) 1 ++
      sliceNeg (threadMsgs.filter (fun y => !y.sentByUs)) 1).map (fun y => y.id) := by
    rw [husers]
    exact List.mem_map.2 ⟨u, List.mem_append_right _ (List.mem_singleton.2 rfl), rfl⟩
  have hres : u ∈ buildContextForLLM threadMsgs 1 1 := by
    rw [buildContextForLLM_eq]
    exact List.mem_filter.2 ⟨humem, decide_eq_true hidmem⟩
  refine ⟨?_, hres, ?_⟩
  · rw [buildContextForLLM_eq]
    exact List.filter_sublist threadMsgs
  · intro h
    rw [h] at hres
    exact absurd hres (List.not_mem_nil u)

theorem C6_buildContext_guarantee_witness :
    (buildContextForLLM [tIn "i1" "t" 1 (some Status.new), tOut "o1" "t" 2 none] 1 1).Sublist
        [tIn "i1" "t" 1 (some Status.new), tOut "o1" "t" 2 none] ∧
      tIn "i1" "t" 1 (some Status.new) ∈
        buildContextForLLM [tIn "i1" "t" 1 (some Status.new), tOut "o1" "t" 2 none] 1 1 ∧
      ¬ buildContextForLLM [tIn "i1" "t" 1 (some Status.new), tOut "o1" "t" 2 none] 1 1 = [] :=
  C6_buildContext_guarantee _ _ (by rfl)

/-! ## C7: the context bound for a 5-inbound / 3-outbound thread -/

def c7List : List Message :=
  [tIn "i1" "t" 1 (some Status.new), tIn "i2" "t" 2 (some Status.new),
   tIn "i3" "t" 3 (some Status.new), tIn "i4" "t" 4 (some Status.new),
   tIn "i5" "t" 5 (some Status.new), tOut "o1" "t" 6 (some Status.sent),
   tOut "o2" "t" 7 (some Status.sent), tOut "o3" "t" 8 (some Status.sent)]

/-- C7 counterexample: for this thread of 5 inbound then 3 outbound
messages (chronological, distinct ids), `buildContextForLLM` with windows
1/1 returns the messages `i5, o3` in thread order — the LAST element is the
outbound `o3`, not the most recent inbound `i5`, refuting the claim's
"the last one being the most recent inbound message". -/
theorem C7_counterexample :
    (c7List.filter (fun m => !m.sentByUs)).length = 5 ∧
      (c7List.filter (fun m => m.sentByUs)).length = 3 ∧
      (c7List.map (fun m => m.id)).Nodup ∧
      (buildContextForLLM c7List 1 1).map (fun m => m.id) = ["i5", "o3"] ∧
      ((buildContextForLLM c7List 1 1).getLast?).map (fun m => m.sentByUs) = some true ∧
      ((buildContextForLLM c7List 1 1).getLast?).map (fun m => m.id) = some "o3" ∧
      (lastInbound c7List).map (fun m => m.id) = some "i5" ∧
      ¬ ("o3" : String) = "i5" := by
  decide

theorem lastInbound_mem_buildContext (threadMsgs : List Message) (u : Message)
    (hu : lastInbound threadMsgs = some u) : u ∈ buildContextForLLM threadMsgs 1 1 := by
  have husers : sliceNeg (threadMsgs.filter (fun m => !m.sentByUs)) 1 = [u] := by
    unfold sliceNeg
    rw [if_neg (by simp)]
    exact drop_length_sub_one hu
  have hufilter : u ∈ threadMsgs.filter (fun m => !m.sentByUs) := mem_of_getLast?_eq hu
  have humem : u ∈ threadMsgs := List.mem_of_mem_filter hufilter
  have hidmem : u.id ∈ (sliceNeg (threadMsgs.filter (fun y => y.sentByUs)) 1 ++
      sliceNeg (threadMsgs.filter (fun y => !y.sentByUs)) 1).map (fun y => y.id) := by
    rw [husers]
    exact List.mem_map.2 ⟨u, List.mem_append_right _ (List.mem_singleton.2 rfl), rfl⟩
  rw [buildContextForLLM_eq]
  exact List.mem_filter.2 ⟨humem, decide_eq_true hidmem⟩

/-- C7 amended: for windows 1/1 and a thread of 5 inbound and 3 outbound
messages with distinct ids, `buildContextForLLM` returns exactly 2 messages
as a subsequence of the thread (hence in thread order), always containing
the most recent inbound message; its LAST element is the most recent
inbound message when the thread's final message is inbound (when the thread
ends with an outbound message the last element is that outbound message
instead, as the counterexample shows). -/
theorem C7_amended_context_bound (threadMsgs : List Message)
    (hids : (threadMsgs.map (fun m => m.id)).Nodup)
    (hin : (threadMsgs.filter (fun m => !m.sentByUs)).length = 5)
    (hout : (threadMsgs.filter (fun m => m.sentByUs)).length = 3) :
    (buildContextForLLM threadMsgs 1 1).length = 2 ∧
      (buildContextForLLM threadMsgs 1 1).Sublist threadMsgs ∧
      (∀ u, lastInbound threadMsgs = some u → u ∈ buildContextForLLM threadMsgs 1 1) ∧
      (∀ z, threadMsgs.getLast? = some z → z.sentByUs = false →
        (buildContextForLLM threadMsgs 1 1).getLast? = some z ∧
          lastInbound threadMsgs = some z) := by
  have hneu : ¬ threadMsgs.filter (fun m => !m.sentByUs) = [] := by
    intro h
    rw [h] at hin
    exact absurd hin (by simp)
  have hnea : ¬ threadMsgs.filter (fun m => m.sentByUs) = [] := by
    intro h
    rw [h] at hout
    exact absurd hout (by simp)
  have hu : (threadMsgs.filter (fun m => !m.sentByUs)).getLast? =
      some ((threadMsgs.filter (fun m => !m.sentByUs)).getLast hneu) :=
    List.getLast?_eq_getLast_of_ne_nil hneu
  have ha : (threadMsgs.filter (fun m => m.sentByUs)).getLast? =
      some ((threadMsgs.filter (fun m => m.sentByUs)).getLast hnea) :=
    List.getLast?_eq_getLast_of_ne_nil hnea
  set u := (threadMsgs.filter (fun m => !m.sentByUs)).getLast hneu with hudef
  set a := (threadMsgs.filter (fun m => m.sentByUs)).getLast hnea with hadef
  have humemf : u ∈ threadMsgs.filter (fun m => !m.sentByUs) := List.getLast_mem hneu
  have hamemf : a ∈ threadMsgs.filter (fun m => m.sentByUs) := List.getLast_mem hnea
  have humem : u ∈ threadMsgs := List.mem_of_mem_filter humemf
  have hamem : a ∈ threadMsgs := List.mem_of_mem_filter hamemf
  have husent : u.sentByUs = false := by
    have := (List.mem_filter.1 humemf).2
    simpa using this
  have hasent : a.sentByUs = true := by
    have := (List.mem_filter.1 hamemf).2
    simpa using this
  have hane : ¬ a.id = u.id := by
    intro hh
    have : a = u := List.inj_on_of_nodup_map hids hamem humem hh
    rw [this, husent] at hasent
    exact Bool.noConfusion hasent
  have husers : sliceNeg (threadMsgs.filter (fun m => !m.sentByUs)) 1 = [u] := by
    unfold sliceNeg
    rw [if_neg (by simp)]
    exact drop_length_sub_one hu
  have hassists : sliceNeg (threadMsgs.filter (fun m => m.sentByUs)) 1 = [a] := by
    unfold sliceNeg
    rw [if_neg (by simp)]
    exact drop_length_sub_one ha
  have hids2 : (sliceNeg (threadMsgs.filter (fun y => y.sentByUs)) 1 ++
      sliceNeg (threadMsgs.filter (fun y => !y.sentByUs)) 1).map (fun y => y.id) = [a.id, u.id] := by
    rw [husers, hassists]
    rfl
  have hlen : (buildContextForLLM threadMsgs 1 1).length = 2 := by
    rw [buildContextForLLM_eq, hids2]
    rw [filter_two_ids_length threadMsgs a.id u.id hids hane]
    rw [if_pos (List.mem_map.2 ⟨a, hamem, rfl⟩), if_pos (List.mem_map.2 ⟨u, humem, rfl⟩)]
  refine ⟨hlen, ?_, ?_, ?_⟩
  · rw [buildContextForLLM_eq]
    exact List.filter_sublist threadMsgs
  · intro u' hu'
    exact lastInbound_mem_buildContext threadMsgs u' hu'
  · intro z hz hzs
    have hlast : lastInbound threadMsgs = some z := by
      unfold lastInbound
      exact filter_getLast? hz (by simp [hzs])
    have huz : u = z := by
      unfold lastInbound at hlast
      rw [hu] at hlast
      exact Option.some.inj hlast
    refine ⟨?_, hlast⟩
    rw [buildContextForLLM_eq]
    refine filter_getLast? hz ?_
    rw [hids2]
    simp [← huz]

theorem C7_amended_context_bound_witness :
    (buildContextForLLM c7List 1 1).length = 2 ∧
      (buildContextForLLM c7List 1 1).Sublist c7List ∧
      tIn "i5" "t" 5 (some Status.new) ∈ buildContextForLLM c7List 1 1 := by
  obtain ⟨h1, h2, h3, _⟩ := C7_amended_context_bound c7List (by decide) (by decide) (by decide)
  exact ⟨h1, h2, h3 (tIn "i5" "t" 5 (some Status.new)) (by rfl)⟩

/-! ## C3: idempotent ingestion by the poller -/

theorem pollerUpsertOne_messages (db : Store) (mm : MsgMeta) :
    ∃ m2, (pollerUpsertOne db mm).messages = setEntry db.messages mm.id m2 := by
  unfold pollerUpsertOne
  rw [pushThreadId_messages]
  exact ⟨_, rfl⟩

/-- C3: upserting the same id twice (within a tick or across ticks) leaves
exactly one record under that id; an existing record's status is preserved
over the computed default, the default applies only when no status exists,
the second upsert does not change the status the first one left, and a
known id does not even reach the fetch stage (the `unseen` filter drops
it). -/
theorem C3_idempotent_ingestion (db : Store) (mm : MsgMeta)
    (hnodup : (db.messages.map Prod.fst).Nodup) :
    ((pollerUpsertOne (pollerUpsertOne db mm) mm).messages.map Prod.fst).count mm.id = 1 ∧
      ((pollerUpsertOne (pollerUpsertOne db mm) mm).messages.map Prod.fst).Nodup ∧
      statusOf (pollerUpsertOne (pollerUpsertOne db mm) mm) mm.id =
        statusOf (pollerUpsertOne db mm) mm.id ∧
      (∀ s, statusOf db mm.id = some s → statusOf (pollerUpsertOne db mm) mm.id = some s) ∧
      (statusOf db mm.id = none →
        statusOf (pollerUpsertOne db mm) mm.id =
          some (if mm.sentByUs then Status.sent else Status.new)) ∧
      (∀ recentlySent ids, (getMsg db mm.id).isSome → ¬ mm.id ∈ pollerUnseen db recentlySent ids) := by
  obtain ⟨m1, hm1⟩ := pollerUpsertOne_messages db mm
  obtain ⟨m2, hm2⟩ := pollerUpsertOne_messages (pollerUpsertOne db mm) mm
  have hnodup1 : ((pollerUpsertOne db mm).messages.map Prod.fst).Nodup := by
    rw [hm1]
    exact nodup_map_fst_setEntry db.messages mm.id m1 hnodup
  have hnodup2 : ((pollerUpsertOne (pollerUpsertOne db mm) mm).messages.map Prod.fst).Nodup := by
    rw [hm2]
    exact nodup_map_fst_setEntry _ mm.id m2 hnodup1
  have hmem2 : mm.id ∈ (pollerUpsertOne (pollerUpsertOne db mm) mm).messages.map Prod.fst := by
    rw [hm2]
    exact mem_of_getEntry_some (getEntry_setEntry_self _ mm.id m2)
  refine ⟨List.count_eq_one_of_mem hnodup2 hmem2, hnodup2, ?_, ?_, ?_, ?_⟩
  · rw [pollerUpsertOne_status_self (pollerUpsertOne db mm) mm,
      pollerUpsertOne_status_self db mm]
  · intro s h
    exact pollerUpsertOne_status_preserve db mm mm.id s h
  · intro h
    rw [pollerUpsertOne_status_self db mm, h]
  · intro recentlySent ids hsome hmem
    have hp := (List.mem_filter.1 hmem).2
    rw [Bool.and_eq_true] at hp
    rcases hx : getMsg db mm.id with _ | r
    · rw [hx] at hsome
      exact Bool.noConfusion hsome
    · rw [hx] at hp
      exact Bool.noConfusion hp.1

def c3Meta : MsgMeta :=
  { id := "m2", threadId := "t1", snippet := "q2", from_ := "Alice <alice@example.com>",
    subject := "Hi again", date := 9, messageIdHeader := none, replyToHeader := none,
    sentByUs := false }

def c3MetaFresh : MsgMeta :=
  { id := "x9", threadId := "t1", snippet := "new msg", from_ := "Alice <alice@example.com>",
    subject := "Another", date := 10, messageIdHeader := none, replyToHeader := none,
    sentByUs := false }

theorem C3_idempotent_ingestion_witness :
    ((pollerUpsertOne (pollerUpsertOne tDB c3Meta) c3Meta).messages.map Prod.fst).count "m2" = 1 ∧
      statusOf (pollerUpsertOne tDB c3Meta) "m2" = some Status.new ∧
      statusOf (pollerUpsertOne tDB c3MetaFresh) "x9" = some Status.new ∧
      ¬ "m2" ∈ pollerUnseen tDB [] ["m2", "x9"] := by
  obtain ⟨a1, _, _, a4, _, a6⟩ := C3_idempotent_ingestion tDB c3Meta (by decide)
  obtain ⟨_, _, _, _, b5, _⟩ := C3_idempotent_ingestion tDB c3MetaFresh (by decide)
  refine ⟨a1, a4 Status.new (by decide), ?_, a6 [] ["m2", "x9"] (by decide)⟩
  have hb := b5 (by decide)
  simpa [c3MetaFresh] using hb

/-! ## C9: thread-membership integrity -/

/-- Well-formedness of the Store's threads map: each member list has no
duplicate ids, and every listed id resolves in the messages map. -/
def storeWF (db : Store) : Prop :=
  ∀ p ∈ db.threads, p.2.Nodup ∧ ∀ id ∈ p.2, (getMsg db id).isSome

instance storeWF_decidable (db : Store) : Decidable (storeWF db) := by
  unfold storeWF
  infer_instance

theorem getEntry_mem {α : Type} : ∀ {l : List (String × α)} {k : String} {v : α},
    getEntry l k = some v → (k, v) ∈ l := by
  intro l
  induction l with
  | nil => intro k v h; exact Option.noConfusion h
  | cons p rest ih =>
    intro k v h
    unfold getEntry at h
    by_cases hp : p.1 = k
    · rw [if_pos hp] at h
      have h2 : p.2 = v := Option.some.inj h
      have hpv : p = (k, v) := by
        rw [← hp, ← h2]
      exact hpv ▸ List.mem_cons_self p rest
    · rw [if_neg hp] at h
      exact List.mem_cons_of_mem _ (ih h)

theorem storeWF_of_presence (db db' : Store) (hth : db'.threads = db.threads)
    (hp : ∀ id, (getMsg db id).isSome → (getMsg db' id).isSome) (h : storeWF db) :
    storeWF db' := by
  intro p hmem
  rw [hth] at hmem
  obtain ⟨h1, h2⟩ := h p hmem
  exact ⟨h1, fun id hid => hp id (h2 id hid)⟩

theorem storeWF_setMsg (db : Store) (k : String) (m : Message) (h : storeWF db) :
    storeWF (setMsg db k m) :=
  storeWF_of_presence db (setMsg db k m) rfl (fun id hid => isSome_getMsg_setMsg db k id m hid) h

theorem storeWF_pushThreadId (db : Store) (tid nid : String) (h : storeWF db)
    (hpres : (getMsg db nid).isSome) : storeWF (pushThreadId db tid nid) := by
  unfold pushThreadId
  by_cases hmem : nid ∈ getThreadIds db tid
  · simpa [hmem] using h
  · simp only [hmem, if_false]
    intro p hp
    rcases mem_setEntry hp with h1 | h2
    · obtain ⟨ha, hb⟩ := h p h1
      exact ⟨ha, fun id hid => hb id hid⟩
    · subst h2
      constructor
      · rw [List.nodup_append]
        refine ⟨?_, List.nodup_singleton nid, ?_⟩
        · unfold getThreadIds
          rcases hq : getEntry db.threads tid with _ | l
          · exact List.nodup_nil
          · exact (h (tid, l) (getEntry_mem hq)).1
        · intro a ha hb
          rw [List.mem_singleton] at hb
          subst hb
          exact hmem ha
      · intro id hid
        rcases List.mem_append.1 hid with h3 | h4
        · unfold getThreadIds at h3
          rcases hq : getEntry db.threads tid with _ | l
          · rw [hq] at h3
            exact absurd h3 (List.not_mem_nil id)
          · rw [hq] at h3
            exact (h (tid, l) (getEntry_mem hq)).2 id h3
        · rw [List.mem_singleton] at h4
          subst h4
          exact hpres

theorem pollerUpsertOne_WF (db : Store) (mm : MsgMeta) (h : storeWF db) :
    storeWF (pollerUpsertOne db mm) := by
  unfold pollerUpsertOne
  refine storeWF_pushThreadId _ mm.threadId mm.id (storeWF_setMsg db mm.id _ h) ?_
  rw [getMsg_setMsg_self]
  rfl

theorem processorUpsertOne_WF (e : String) (db : Store) (m : Message) (h : storeWF db) :
    storeWF (processorUpsertOne e db m) := by
  unfold processorUpsertOne
  refine storeWF_pushThreadId _ m.threadId m.id (storeWF_setMsg db m.id _ h) ?_
  rw [getMsg_setMsg_self]
  rfl

theorem insertSentRecordRM_WF (env : Env) (db : Store) (sid : String) (sth : Option String)
    (rT rS : String) (sh : Option String) (tIdR : String) (h : storeWF db) :
    storeWF (insertSentRecordRM env db sid sth rT rS sh tIdR) := by
  unfold insertSentRecordRM
  rcases hx : getMsg db sid with _ | ex
  · refine storeWF_pushThreadId _ _ sid (storeWF_setMsg db sid _ h) ?_
    rw [getMsg_setMsg_self]
    rfl
  · exact storeWF_setMsg db sid _ h

theorem insertSentRecordPM_WF (env : Env) (db : Store) (sid : String) (resp : RespondResult)
    (nm : Message) (h : storeWF db) : storeWF (insertSentRecordPM env db sid resp nm) := by
  unfold insertSentRecordPM
  rcases hx : getMsg db sid with _ | ex
  · refine storeWF_pushThreadId _ _ sid (storeWF_setMsg db sid _ h) ?_
    rw [getMsg_setMsg_self]
    rfl
  · exact storeWF_setMsg db sid _ h

theorem markCtx_WF (db : Store) (ctx : List Message) (r : String) (raw : Option String)
    (h : storeWF db) : storeWF (markCtxHumanReview db ctx r raw) :=
  storeWF_of_presence db _ (markCtx_threads db ctx r raw)
    (fun id hid => markCtx_presence db ctx r raw id hid) h

theorem markResponded_WF (db : Store) (ft : List Message) (a b c : String) (n : Nat)
    (lr : String) (p : Json) (h : storeWF db) : storeWF (markResponded db ft a b c n lr p) :=
  storeWF_of_presence db _ (markResponded_threads db ft a b c n lr p)
    (fun id hid => markResponded_presence db ft a b c n lr p id hid) h

/-- C9: starting from a well-formed Store, every mutating operation — the
poller upsert, the processor upsert, both sent-record insertions, and the
status-marking passes — yields a Store in which each thread's member list
has no duplicates and every listed id resolves in the messages map (every
insertion is membership-guarded and preceded by creation of the record). -/
theorem C9_thread_integrity (db : Store) (h : storeWF db) :
    (∀ mm, storeWF (pollerUpsertOne db mm)) ∧
      (∀ e m, storeWF (processorUpsertOne e db m)) ∧
      (∀ env sid sth rT rS sh tIdR, storeWF (insertSentRecordRM env db sid sth rT rS sh tIdR)) ∧
      (∀ env sid resp nm, storeWF (insertSentRecordPM env db sid resp nm)) ∧
      (∀ ctx r raw, storeWF (markCtxHumanReview db ctx r raw)) ∧
      (∀ ft a b c n lr p, storeWF (markResponded db ft a b c n lr p)) :=
  ⟨fun mm => pollerUpsertOne_WF db mm h,
   fun e m => processorUpsertOne_WF e db m h,
   fun env sid sth rT rS sh tIdR => insertSentRecordRM_WF env db sid sth rT rS sh tIdR h,
   fun env sid resp nm => insertSentRecordPM_WF env db sid resp nm h,
   fun ctx r raw => markCtx_WF db ctx r raw h,
   fun ft a b c n lr p => markResponded_WF db ft a b c n lr p h⟩

theorem C9_thread_integrity_witness :
    storeWF (pollerUpsertOne tDB c3MetaFresh) ∧
      storeWF (processorUpsertOne "owner@example.com" tDB (tIn "x7" "t2" 11 none)) ∧
      storeWF (insertSentRecordRM tEnvOK tDB "s1" (some "t1") "Thanks" "Re: Hi" none "t1") ∧
      storeWF (insertSentRecordPM tEnvOK tDB "s2" emptyRespondResult (tIn "m2" "t1" 2 none)) ∧
      storeWF (markCtxHumanReview tDB [tIn "m2" "t1" 2 (some Status.new)] "LLM call failed" none) ∧
      storeWF (markResponded tDB [tIn "m2" "t1" 2 (some Status.new)] "Re: Hi" "b\n" "s1" 100 "raw"
        (Json.obj [])) := by
  obtain ⟨h1, h2, h3, h4, h5, h6⟩ := C9_thread_integrity tDB (by decide)
  exact ⟨h1 c3MetaFresh, h2 "owner@example.com" (tIn "x7" "t2" 11 none),
    h3 tEnvOK "s1" (some "t1") "Thanks" "Re: Hi" none "t1",
    h4 tEnvOK "s2" emptyRespondResult (tIn "m2" "t1" 2 none),
    h5 [tIn "m2" "t1" 2 (some Status.new)] "LLM call failed" none,
    h6 [tIn "m2" "t1" 2 (some Status.new)] "Re: Hi" "b\n" "s1" 100 "raw" (Json.obj [])⟩

/-! ## C10: empty compact context -/

/-- C10: calling `respond_mail` with an empty context array returns
`{ok: false, error: "empty_context"}` immediately: the Store is unchanged,
and no reply-generator or send call is made (the non-array case of the
source's `Array.isArray` test has no counterpart for a typed list and takes
the same branch). -/
theorem C10_empty_context (env : Env) (toEmail subject : Option String) (db : Store) :
    (respond_mail env [] toEmail subject db).1.ok = false ∧
      (respond_mail env [] toEmail subject db).1.error = some "empty_context" ∧
      (respond_mail env [] toEmail subject db).2.1 = db ∧
      (respond_mail env [] toEmail subject db).2.2 = zeroEff :=
  ⟨rfl, rfl, rfl, rfl⟩

/-! ## C2: `loadDB` corruption handling -/

/-- C2 evaluation: missing and blank files load as the empty Store with no
quarantine; the Store object alone parses; but the same object followed by
trailing garbage is NOT salvaged — the end-anchored regex `/\{[\s\S]*\}$/`
cannot match it, so the content is quarantined (exactly one artifact) and
the empty Store is returned.  Leading garbage before an object that runs to
the end of the file IS salvaged, which is what the anchor actually permits;
fully malformed content yields exactly one quarantine artifact and the
empty Store.  No input makes `loadDB` fail (it is total). -/
theorem C2_loadDB_eval :
    loadDB none = ⟨emptyDBJson, []⟩ ∧
      loadDB (some "") = ⟨emptyDBJson, []⟩ ∧
      loadDB (some "   ") = ⟨emptyDBJson, []⟩ ∧
      safeParse "\x7b\"messages\":\x7b\x7d,\"threads\":\x7b\x7d\x7d" = some emptyDBJson ∧
      loadDB (some "\x7b\"messages\":\x7b\x7d,\"threads\":\x7b\x7d\x7dx") =
        ⟨emptyDBJson, ["\x7b\"messages\":\x7b\x7d,\"threads\":\x7b\x7d\x7dx"]⟩ ∧
      loadDB (some "oops\x7b\"messages\":\x7b\x7d,\"threads\":\x7b\x7d\x7d") = ⟨emptyDBJson, []⟩ ∧
      loadDB (some "###corrupt###") = ⟨emptyDBJson, ["###corrupt###"]⟩ :=
  ⟨rfl, rfl, rfl, rfl, rfl, rfl, rfl⟩

/-! ## C8: `saveDB` fallback and error propagation -/

/-- C8: `saveDB` attempts the temp-write first in every run; the direct
write is attempted exactly when the atomic temp-write + rename path fails;
the call succeeds iff the atomic path or the fallback succeeds, and raises
iff both fail — the only Store operation that propagates an error. -/
theorem C8_saveDB_fallback (a b d : Bool) :
    ((saveDB ⟨a, b, d⟩).1 = Except.ok () ↔ ((a = true ∧ b = true) ∨ d = true)) ∧
      ((saveDB ⟨a, b, d⟩).1 = Except.error "saveDB fallback write failed" ↔
        ¬ ((a = true ∧ b = true) ∨ d = true)) ∧
      (saveDB ⟨a, b, d⟩).2.head? = some WriteAttempt.atomicTmpWrite ∧
      (WriteAttempt.directWrite ∈ (saveDB ⟨a, b, d⟩).2 ↔ ¬ (a = true ∧ b = true)) := by
  cases a <;> cases b <;> cases d <;> simp [saveDB]

/-! ## C1: status monotonicity -/

instance tableStep_dec (a b : Option Status) : Decidable (tableStep a b) := by
  unfold tableStep
  infer_instance

instance amendedStep_dec (a b : Option Status) : Decidable (amendedStep a b) := by
  unfold amendedStep
  infer_instance

/-- C1 counterexample: a Store holds outbound message `o1` with status
`sent`; the compact context contains `o1` and the newer inbound `m2`, so
the latest-context message is not ours and processing proceeds; the reply
generator call fails, and the failure path marks every compact-context
message — `o1` moves from `sent` to `human_review`, a transition the table
does not allow. -/
theorem C1_counterexample :
    statusOf tDB "o1" = some Status.sent ∧
      statusOf (respond_mail tEnv [tOut "o1" "t1" 1 (some Status.sent),
        tIn "m2" "t1" 2 (some Status.new)] none none tDB).2.1 "o1" = some Status.human_review ∧
      ¬ tableStep (some Status.sent) (some Status.human_review) :=
  ⟨rfl, by decide, by decide⟩

/-- C1 amended: statuses move forward per the transition table under the
poller upsert, the processor upsert, and both sent-record insertions; the
success-path `responded` marking also conforms provided the snapshot it
filters reflects the Store (which the sequential reload discipline
guarantees); but the failure-path context marking only satisfies the
weaker `amendedStep`: it is table-conformant except that it may move any
compact-context message, whatever its status, to `human_review`. -/
theorem C1_amended_status_monotonicity (db : Store) (id : String) :
    (∀ mm, tableStep (statusOf db id) (statusOf (pollerUpsertOne db mm) id)) ∧
      (∀ e m, tableStep (statusOf db id) (statusOf (processorUpsertOne e db m) id)) ∧
      (∀ env sid sth rT rS sh tIdR,
        tableStep (statusOf db id) (statusOf (insertSentRecordRM env db sid sth rT rS sh tIdR) id)) ∧
      (∀ env sid resp nm,
        tableStep (statusOf db id) (statusOf (insertSentRecordPM env db sid resp nm) id)) ∧
      (∀ ft a b c n lr p,
        (∀ m ∈ ft, m.status = some Status.new → m.sentByUs = false →
          statusOf db m.id = some Status.new ∨ statusOf db m.id = some Status.responded) →
        tableStep (statusOf db id) (statusOf (markResponded db ft a b c n lr p) id)) ∧
      (∀ ctx r raw, amendedStep (statusOf db id) (statusOf (markCtxHumanReview db ctx r raw) id)) := by
  refine ⟨fun mm => pollerUpsertOne_tableStep db mm id,
    fun e m => processorUpsertOne_tableStep e db m id,
    fun env sid sth rT rS sh tIdR => insertSentRecordRM_tableStep env db sid sth rT rS sh tIdR id,
    fun env sid resp nm => insertSentRecordPM_tableStep env db sid resp nm id,
    fun ft a b c n lr p H => markResponded_tableStep db ft a b c n lr p id H,
    fun ctx r raw => ?_⟩
  rcases markCtx_status db ctx r raw id with h | h
  · exact Or.inl (Or.inl h)
  · exact Or.inr h

theorem C1_amended_status_monotonicity_witness :
    tableStep (statusOf tDB "m2") (statusOf (pollerUpsertOne tDB c3Meta) "m2") ∧
      tableStep (statusOf tDB "m2")
        (statusOf (processorUpsertOne "owner@example.com" tDB (tIn "m2" "t1" 2 none)) "m2") ∧
      tableStep (statusOf tDB "m2")
        (statusOf (insertSentRecordRM tEnvOK tDB "s1" (some "t1") "Thanks" "Re: Hi" none "t1") "m2") ∧
      tableStep (statusOf tDB "m2")
        (statusOf (insertSentRecordPM tEnvOK tDB "s1" emptyRespondResult (tIn "m2" "t1" 2 none)) "m2") ∧
      tableStep (statusOf tDB "m2")
        (statusOf (markResponded tDB [tIn "m2" "t1" 2 (some Status.new)] "Re: Hi" "b\n" "s1" 100
          "raw" (Json.obj [])) "m2") ∧
      amendedStep (statusOf tDB "m2")
        (statusOf (markCtxHumanReview tDB [tIn "m2" "t1" 2 (some Status.new)] "LLM call failed"
          none) "m2") := by
  obtain ⟨w1, w2, w3, w4, w5, w6⟩ := C1_amended_status_monotonicity tDB "m2"
  exact ⟨w1 c3Meta, w2 "owner@example.com" (tIn "m2" "t1" 2 none),
    w3 tEnvOK "s1" (some "t1") "Thanks" "Re: Hi" none "t1",
    w4 tEnvOK "s1" emptyRespondResult (tIn "m2" "t1" 2 none),
    w5 [tIn "m2" "t1" 2 (some Status.new)] "Re: Hi" "b\n" "s1" 100 "raw" (Json.obj []) (by decide),
    w6 [tIn "m2" "t1" 2 (some Status.new)] "LLM call failed" none⟩


/-! ## C5: failure routing -/

theorem respond_mail_llm_failure (env : Env) (ctx : List Message) (toEmail subject : Option String)
    (db : Store) (hne : ¬ ctx = []) (hg : env.gmailPresent = true)
    (hnotus : strIncludes (lowerStr ((sortByDate ctx).getLastD emptyMessage).from_)
      (lowerStr env.myEmail) = false)
    (hllm : env.llm = LlmOutcome.failure) :
    respond_mail env ctx toEmail subject db =
      ({ emptyRespondResult with human_review := true, reason := some "llm_error" },
        markCtxHumanReview db (sortByDate ctx) "LLM call failed" none, ⟨1, 0⟩) := by
  have hie : ctx.isEmpty = false := by
    cases ctx
    · exact absurd rfl hne
    · rfl
  rw [List.getLastD_eq_getLast?] at hnotus
  unfold respond_mail
  simp [hie, hg, hnotus, hllm]

theorem respond_mail_unparsable (env : Env) (ctx : List Message) (toEmail subject : Option String)
    (db : Store) (raw : String) (hne : ¬ ctx = []) (hg : env.gmailPresent = true)
    (hnotus : strIncludes (lowerStr ((sortByDate ctx).getLastD emptyMessage).from_)
      (lowerStr env.myEmail) = false)
    (hllm : env.llm = LlmOutcome.output raw)
    (hparse : jsonParse (jsOrStr (extractJsonBlock raw) raw) = none) :
    respond_mail env ctx toEmail subject db =
      ({ emptyRespondResult with
          human_review := true
          reason := some "unparsable_llm"
          raw := some raw },
        markCtxHumanReview db (sortByDate ctx) "LLM returned unparsable JSON" (some raw), ⟨1, 0⟩) := by
  have hie : ctx.isEmpty = false := by
    cases ctx
    · exact absurd rfl hne
    · rfl
  rw [List.getLastD_eq_getLast?] at hnotus
  unfold respond_mail
  simp [hie, hg, hnotus, hllm, hparse]

theorem respond_mail_review (env : Env) (ctx : List Message) (toEmail subject : Option String)
    (db : Store) (raw : String) (parsed : Json) (hne : ¬ ctx = []) (hg : env.gmailPresent = true)
    (hnotus : strIncludes (lowerStr ((sortByDate ctx).getLastD emptyMessage).from_)
      (lowerStr env.myEmail) = false)
    (hllm : env.llm = LlmOutcome.output raw)
    (hparse : jsonParse (jsOrStr (extractJsonBlock raw) raw) = some parsed)
    (hrev : llmReviewTriggered parsed = true) :
    respond_mail env ctx toEmail subject db =
      ({ emptyRespondResult with
          human_review := true
          reason :=
            if jTruthy parsed then (getField parsed "reason").map jsToString
            else some "empty_reply" },
        markCtxHumanReview db (sortByDate ctx)
          (if jTruthy parsed then
            match getField parsed "reason" with
            | some v => if jTruthy v then jsToString v else "LLM requested review"
            | none => "LLM requested review"
          else "LLM empty reply")
          (some raw), ⟨1, 0⟩) := by
  have hie : ctx.isEmpty = false := by
    cases ctx
    · exact absurd rfl hne
    · rfl
  rw [List.getLastD_eq_getLast?] at hnotus
  unfold respond_mail
  simp [hie, hg, hnotus, hllm, hparse, hrev]

theorem respond_mail_send_failed (env : Env) (ctx : List Message) (toEmail subject : Option String)
    (db : Store) (raw : String) (parsed : Json) (msg : String) (hne : ¬ ctx = [])
    (hg : env.gmailPresent = true)
    (hnotus : strIncludes (lowerStr ((sortByDate ctx).getLastD emptyMessage).from_)
      (lowerStr env.myEmail) = false)
    (hllm : env.llm = LlmOutcome.output raw)
    (hparse : jsonParse (jsOrStr (extractJsonBlock raw) raw) = some parsed)
    (hrev : llmReviewTriggered parsed = false)
    (hsend : env.send = SendOutcome.failure msg) :
    respond_mail env ctx toEmail subject db =
      ({ emptyRespondResult with error := some "send_failed" },
        markCtxHumanReview db (sortByDate ctx) ("Failed to send via Gmail: " ++ msg) (some raw),
        ⟨1, 1⟩) := by
  have hie : ctx.isEmpty = false := by
    cases ctx
    · exact absurd rfl hne
    · rfl
  rw [List.getLastD_eq_getLast?] at hnotus
  unfold respond_mail
  simp [hie, hg, hnotus, hllm, hparse, hrev, hsend]

theorem mem_sortByDate {m : Message} {l : List Message} : m ∈ sortByDate l ↔ m ∈ l :=
  (List.perm_insertionSort dateLe l).mem_iff

theorem statusOf_new_getMsg {db : Store} {id : String} (h : statusOf db id = some Status.new) :
    ∃ r, getMsg db id = some r ∧ r.status = some Status.new := by
  unfold statusOf at h
  rcases hg : getMsg db id with _ | r
  · rw [hg] at h
    simp at h
  · rw [hg] at h
    simp only [Option.some_bind] at h
    exact ⟨r, rfl, h⟩

/-- When `respond_mail` came back non-ok with the `human_review` flag,
the loop body re-marks the triggering message through `db4`
(lines 739-751), overwriting `llm_raw` with `resp.raw || resp.llmRaw
|| null`. -/
theorem processNewMessage_hr (env : Env) (ctx : List Message) (nm : Message) (db : Store)
    (resp : RespondResult) (db1 : Store) (eff : Effects) (ex : Message)
    (H0 : statusOf db nm.id = some Status.new)
    (hrm : respond_mail env ctx none none db = (resp, db1, eff))
    (hok : resp.ok = false) (hhr : resp.human_review = true)
    (hex : getMsg db1 nm.id = some ex) :
    processNewMessage env ctx nm db =
      (⟨nm.id, false, resp.reason⟩,
        setMsg db1 nm.id
          { ex with
            status := some Status.human_review
            humanReviewReason := some (jsOrStr resp.reason "LLM requested review")
            llm_raw := jsOrS resp.raw (jsOrS resp.llmRaw none) },
        eff) := by
  rcases statusOf_new_getMsg H0 with ⟨r, hgq, hst⟩
  unfold processNewMessage
  rw [hrm]
  simp [hgq, hst, hok, hhr, hex]

/-- When `respond_mail` came back non-ok without the `human_review` flag
(the send-failure verdict), the loop body records the failure but leaves
the Store exactly as `respond_mail` left it. -/
theorem processNewMessage_fail (env : Env) (ctx : List Message) (nm : Message) (db : Store)
    (resp : RespondResult) (db1 : Store) (eff : Effects)
    (H0 : statusOf db nm.id = some Status.new)
    (hrm : respond_mail env ctx none none db = (resp, db1, eff))
    (hok : resp.ok = false) (hhr : resp.human_review = false) :
    processNewMessage env ctx nm db = (⟨nm.id, false, resp.reason⟩, db1, eff) := by
  rcases statusOf_new_getMsg H0 with ⟨r, hgq, hst⟩
  unfold processNewMessage
  rw [hrm]
  simp [hgq, hst, hok, hhr]

/-- C5 — counterexample.  A thread with two `new` inbound messages where the
compact LLM context passed to `respond_mail` holds only the newer one
(`m2`), exactly as `buildContextForLLM` produces with the default window of
one user message.  The loop runs for the older triggering message `m1`;
the LLM answers with a valid reply but the Gmail send fails.  The
send-failure verdict `{ error: 'send_failed' }` carries no `human_review`
flag, so the loop body never marks `m1`: it stays `new`, while the
context message `m2` — which was not the message being processed — is
moved to `human_review`.  The claim that the *triggering* 'new' inbound
message is persisted with status 'human_review' on a send failure is
therefore false (the operation does return a non-ok result). -/
theorem C5_counterexample :
    (processNewMessage tEnvSendFail [tIn "m2" "t1" 2 (some Status.new)]
        (tIn "m1" "t1" 1 (some Status.new)) tDB2).1.ok = false ∧
    statusOf (processNewMessage tEnvSendFail [tIn "m2" "t1" 2 (some Status.new)]
        (tIn "m1" "t1" 1 (some Status.new)) tDB2).2.1 "m1" = some Status.new ∧
    ¬ statusOf (processNewMessage tEnvSendFail [tIn "m2" "t1" 2 (some Status.new)]
        (tIn "m1" "t1" 1 (some Status.new)) tDB2).2.1 "m1" = some Status.human_review ∧
    statusOf (processNewMessage tEnvSendFail [tIn "m2" "t1" 2 (some Status.new)]
        (tIn "m1" "t1" 1 (some Status.new)) tDB2).2.1 "m2" = some Status.human_review := by
  refine ⟨by decide, by decide, by decide, by decide⟩

/-- C5 — amended.  What the failure paths actually persist, for a loop
iteration over a triggering message `nm` that is still `new`, with a
usable Gmail client, a non-empty compact context whose newest message is
not from us.  (1) LLM call failure: `nm` is routed to `human_review` and
non-ok is returned, but the retained raw output is `none` (there is none
to retain).  (2) Unparsable non-empty LLM output: `nm` is routed to
`human_review` with the raw output retained — as claimed.  (3) Explicit
review request or empty reply: `nm` is routed to `human_review` and
non-ok is returned, but the `db4` re-mark overwrites `llm_raw` with
`resp.raw || resp.llmRaw || null` and the review verdict carries neither
field, so the raw generator output retained by `respond_mail` is erased
on the triggering message — contradicting the audit-trail part of the
claim.  (4) Send failure after a valid reply: a non-ok result is
returned and every *context* message present in the Store is routed to
`human_review` with the raw output retained, but the verdict
`{ error: 'send_failed' }` has no `human_review` flag, so when the
triggering message is not in the compact context its status stays
`new` — contradicting the routing part of the claim (see the
counterexample). -/
theorem C5_amended_failure_routing (env : Env) (ctx : List Message) (nm : Message) (db : Store)
    (H0 : statusOf db nm.id = some Status.new)
    (Hne : ¬ ctx = [])
    (Hg : env.gmailPresent = true)
    (Hnotus : strIncludes (lowerStr ((sortByDate ctx).getLastD emptyMessage).from_)
      (lowerStr env.myEmail) = false) :
    (env.llm = LlmOutcome.failure →
      (processNewMessage env ctx nm db).1.ok = false ∧
      statusOf (processNewMessage env ctx nm db).2.1 nm.id = some Status.human_review ∧
      ∃ ex, getMsg (processNewMessage env ctx nm db).2.1 nm.id = some ex ∧
        ex.llm_raw = none) ∧
    (∀ raw, env.llm = LlmOutcome.output raw →
      jsonParse (jsOrStr (extractJsonBlock raw) raw) = none → ¬ raw = "" →
      (processNewMessage env ctx nm db).1.ok = false ∧
      statusOf (processNewMessage env ctx nm db).2.1 nm.id = some Status.human_review ∧
      ∃ ex, getMsg (processNewMessage env ctx nm db).2.1 nm.id = some ex ∧
        ex.llm_raw = some raw) ∧
    (∀ raw parsed, env.llm = LlmOutcome.output raw →
      jsonParse (jsOrStr (extractJsonBlock raw) raw) = some parsed →
      llmReviewTriggered parsed = true →
      (processNewMessage env ctx nm db).1.ok = false ∧
      statusOf (processNewMessage env ctx nm db).2.1 nm.id = some Status.human_review ∧
      ∃ ex, getMsg (processNewMessage env ctx nm db).2.1 nm.id = some ex ∧
        ex.llm_raw = none) ∧
    (∀ raw parsed msg, env.llm = LlmOutcome.output raw →
      jsonParse (jsOrStr (extractJsonBlock raw) raw) = some parsed →
      llmReviewTriggered parsed = false →
      env.send = SendOutcome.failure msg →
      (processNewMessage env ctx nm db).1.ok = false ∧
      (∀ m ∈ ctx, (getMsg db m.id).isSome →
        statusOf (processNewMessage env ctx nm db).2.1 m.id = some Status.human_review ∧
        ∃ ex, getMsg (processNewMessage env ctx nm db).2.1 m.id = some ex ∧
          ex.llm_raw = some raw) ∧
      ((∀ m ∈ ctx, ¬ m.id = nm.id) →
        statusOf (processNewMessage env ctx nm db).2.1 nm.id = some Status.new)) := by
  rcases statusOf_new_getMsg H0 with ⟨r0, hg0, _⟩
  refine ⟨?_, ?_, ?_, ?_⟩
  · intro hllm
    have hred := respond_mail_llm_failure env ctx none none db Hne Hg Hnotus hllm
    have hpres := markCtx_presence db (sortByDate ctx) "LLM call failed" none nm.id
      (by rw [hg0]; rfl)
    rcases hopt : getMsg (markCtxHumanReview db (sortByDate ctx) "LLM call failed" none) nm.id
      with _ | ex
    · rw [hopt] at hpres
      exact absurd hpres (by simp)
    · have hmain := processNewMessage_hr env ctx nm db _ _ _ ex H0 hred rfl rfl hopt
      rw [hmain]
      refine ⟨rfl, ?_, ⟨_, getMsg_setMsg_self _ _ _, rfl⟩⟩
      exact statusOf_setMsg_self _ _ _
  · intro raw hllm hparse hraw
    have hred := respond_mail_unparsable env ctx none none db raw Hne Hg Hnotus hllm hparse
    have hpres := markCtx_presence db (sortByDate ctx) "LLM returned unparsable JSON"
      (some raw) nm.id (by rw [hg0]; rfl)
    rcases hopt : getMsg
        (markCtxHumanReview db (sortByDate ctx) "LLM returned unparsable JSON" (some raw)) nm.id
      with _ | ex
    · rw [hopt] at hpres
      exact absurd hpres (by simp)
    · have hmain := processNewMessage_hr env ctx nm db _ _ _ ex H0 hred rfl rfl hopt
      rw [hmain]
      refine ⟨rfl, ?_, ⟨_, getMsg_setMsg_self _ _ _, ?_⟩⟩
      · exact statusOf_setMsg_self _ _ _
      · simp [jsOrS, truthyS, hraw]
  · intro raw parsed hllm hparse hrev
    have hred := respond_mail_review env ctx none none db raw parsed Hne Hg Hnotus hllm hparse hrev
    have hpres := markCtx_presence db (sortByDate ctx)
      (if jTruthy parsed then
        match getField parsed "reason" with
        | some v => if jTruthy v then jsToString v else "LLM requested review"
        | none => "LLM requested review"
      else "LLM empty reply") (some raw) nm.id (by rw [hg0]; rfl)
    rcases hopt : getMsg
        (markCtxHumanReview db (sortByDate ctx)
          (if jTruthy parsed then
            match getField parsed "reason" with
            | some v => if jTruthy v then jsToString v else "LLM requested review"
            | none => "LLM requested review"
          else "LLM empty reply") (some raw)) nm.id
      with _ | ex
    · rw [hopt] at hpres
      exact absurd hpres (by simp)
    · have hmain := processNewMessage_hr env ctx nm db _ _ _ ex H0 hred rfl rfl hopt
      rw [hmain]
      refine ⟨rfl, ?_, ⟨_, getMsg_setMsg_self _ _ _, rfl⟩⟩
      exact statusOf_setMsg_self _ _ _
  · intro raw parsed msg hllm hparse hrev hsend
    have hred := respond_mail_send_failed env ctx none none db raw parsed msg Hne Hg Hnotus
      hllm hparse hrev hsend
    have hmain := processNewMessage_fail env ctx nm db _ _ _ H0 hred rfl rfl
    rw [hmain]
    refine ⟨rfl, ?_, ?_⟩
    · intro m hm hp
      rcases markCtx_marked db (sortByDate ctx) ("Failed to send via Gmail: " ++ msg)
          (some raw) m.id ⟨m, mem_sortByDate.mpr hm, rfl⟩ hp with ⟨ex2, hg2, hs2, _, hraw2⟩
      refine ⟨?_, ex2, hg2, hraw2 raw rfl⟩
      simp [statusOf, hg2, hs2]
    · intro hnm
      have hgeq := markCtx_getMsg_not_mem db (sortByDate ctx)
        ("Failed to send via Gmail: " ++ msg) (some raw) nm.id
        (fun m hm => hnm m (mem_sortByDate.mp hm))
      show statusOf (markCtxHumanReview db (sortByDate ctx)
        ("Failed to send via Gmail: " ++ msg) (some raw)) nm.id = some Status.new
      unfold statusOf
      rw [hgeq]
      exact H0

theorem C5_amended_failure_routing_witness :
    (processNewMessage tEnv [tIn "m1" "t1" 1 (some Status.new)]
        (tIn "m1" "t1" 1 (some Status.new)) tDB2).1.ok = false ∧
    statusOf (processNewMessage tEnv [tIn "m1" "t1" 1 (some Status.new)]
        (tIn "m1" "t1" 1 (some Status.new)) tDB2).2.1 "m1" = some Status.human_review := by
  have h := (C5_amended_failure_routing tEnv [tIn "m1" "t1" 1 (some Status.new)]
    (tIn "m1" "t1" 1 (some Status.new)) tDB2 (by decide) (List.cons_ne_nil _ _) rfl
    (by decide)).1 rfl
  exact ⟨h.1, h.2.1⟩
